import Mathlib

/-!
Verification of the splitter-files file-carving engine.

The Go source is embedded shallowly:
* byte slices (`[]byte`) become `List Nat` (each element a byte value),
* Go strings become Lean `String`s compared through their character data,
* `bytes.Index` / `bytes.LastIndex` return `Option Nat` in place of `-1`,
* a Go runtime panic (out-of-range slice) is modelled as `none`,
* the two external decoders used by the validators, `zip.NewReader` and
  `xml.Unmarshal`, are oracles carried in an `Env` structure: the embedding
  quantifies over them, so every universally quantified theorem holds for
  the real decoders in particular,
* file-system writes are modelled by returning the written bytes,
* the concurrent scheduler/worker/aggregator system is modelled by its
  deterministic Go-level dataflow: the scheduler's queues hold at most one
  element between scans, so dispatch order equals creation order and the
  channel send is modelled as always succeeding (the 100 ms backoff only
  retries the same head-of-queue item).
-/

namespace SplitterFiles

/-! ### Byte-string primitives (Go `bytes` and `strings` packages) -/

/-- Bytes of an ASCII Go string literal. -/
def strBytes (s : String) : List Nat := s.data.map Char.toNat

/-- Bytes of the UTF-16LE encoding of an ASCII Go string literal, as in the
source's literals like `"E\x00n\x00c\x00r\x00y\x00p\x00t\x00"`. -/
def utf16le (s : String) : List Nat := s.data.flatMap (fun c => [c.toNat, 0])

/-- Go `strings.HasPrefix` (byte-wise prefix on the character data). -/
def goStartsWith (s p : String) : Bool := p.data.isPrefixOf s.data

/-- The scanning loop of `bytes.Index`: `i` is the index of the head of
`hay` within the original haystack. -/
def bIndexAux (needle : List Nat) : Nat → List Nat → Option Nat
  | i, hay =>
    if needle.isPrefixOf hay then some i
    else
      match hay with
      | [] => none
      | _ :: t => bIndexAux needle (i + 1) t

/-- Go `bytes.Index`: index of the first occurrence of `needle` in `hay`,
`none` for Go's `-1`. -/
def bIndex (hay needle : List Nat) : Option Nat := bIndexAux needle 0 hay

/-- Go `bytes.Contains`, which is `bytes.Index(b, sub) != -1`. -/
def bContains (hay needle : List Nat) : Bool := (bIndex hay needle).isSome

/-- Go `strings.Contains` on the character data. -/
def goContains (s sub : String) : Bool := bContains (strBytes s) (strBytes sub)

/-- Go `bytes.HasPrefix`. -/
def bStartsWith (hay needle : List Nat) : Bool := needle.isPrefixOf hay

/-- The scanning loop of `bytes.LastIndex`: `i` is the index of the head of
`hay` within the original haystack and `best` the latest match so far. -/
def bLastIndexAux (needle : List Nat) : Nat → Option Nat → List Nat → Option Nat
  | i, best, hay =>
    let best' := if needle.isPrefixOf hay then some i else best
    match hay with
    | [] => best'
    | _ :: t => bLastIndexAux needle (i + 1) best' t

/-- Go `bytes.LastIndex`: index of the last occurrence of `needle` in `hay`,
`none` for Go's `-1`. -/
def bLastIndex (hay needle : List Nat) : Option Nat := bLastIndexAux needle 0 none hay

/-- Lexicographic `<` on byte strings (Go string comparison). -/
def lexLt : List Nat → List Nat → Bool
  | _, [] => false
  | [], _ :: _ => true
  | a :: as, b :: bs => if a < b then true else if b < a then false else lexLt as bs

/-- Go slice expression `data[lo:hi]` (indices assumed in range at call sites). -/
def goSlice (data : List Nat) (lo hi : Nat) : List Nat := (data.take hi).drop lo

/-- The byte range `input[s..e)`. -/
def byteSlice (l : List Nat) (s e : Nat) : List Nat := (l.drop s).take (e - s)

/-! ### Data model (`internal/models`) -/

/-- `models.OfficeFileType` (src/unnamed/part_003). -/
inductive OfficeFileType
  | unknownOffice
  | wordDocument
  | excelDocument
  | powerPointDocument
deriving DecidableEq

/-- `models.OfficeDocumentInfo` (src/unnamed/part_003). -/
structure OfficeDocumentInfo where
  type : OfficeFileType
  version : String
  isEncrypted : Bool
  isMacro : Bool
deriving DecidableEq

/-- A member of a ZIP archive as exposed by Go's `zip.Reader`: its name, and
the bytes obtained by `Open`+`ReadAll` (`none` models an open/read error,
which every call site skips with `continue`). -/
structure ZipEntry where
  name : String
  content : Option (List Nat)

/-- The decoded `[Content_Types].xml` of an OOXML container
(`ContentTypes` struct in src/internal/extractor/office.go):
`Default` entries carry `(Extension, ContentType)` attributes and
`Override` entries carry `(PartName, ContentType)` attributes. -/
structure CTDefault where
  extensionAttr : String
  contentType : String

structure CTOverride where
  partName : String
  contentType : String

structure ContentTypes where
  defaults : List CTDefault
  overrides : List CTOverride

/-- The two external decoders the validators call. `zipParse` models
`zip.NewReader` (`none` = error return); `xmlContentTypes` models
`xml.Unmarshal` into `ContentTypes` (`none` = error return). Theorems
quantify over `Env`, so they hold for the real decoders. -/
structure Env where
  zipParse : List Nat → Option (List ZipEntry)
  xmlContentTypes : List Nat → Option ContentTypes

/-- An `Env` whose decoders always fail; used only to instantiate theorems
at concrete inputs whose behaviour does not depend on the decoders. -/
def env0 : Env := ⟨fun _ => none, fun _ => none⟩

/-! ### Format validators (src/unnamed/part_002 and
src/internal/extractor/office.go) -/

/-- `validateZipFile` from src/unnamed/part_002 (package `extractor`,
used by the built program). The source is
`return bytes.Equal(data[:4], []byte{0x50, 0x4B, 0x03, 0x04})` with no
length guard, so on a region shorter than 4 bytes the slice `data[:4]`
panics; the panic is modelled as `none`. -/
def validateZipFile (data : List Nat) : Option Bool :=
  if data.length < 4 then none
  else some (decide (goSlice data 0 4 = [0x50, 0x4B, 0x03, 0x04]))

/-- `validateZipFile` from the historical monolith variant
(src/cmd/app/main.go lines 575-580), which has the length guard
`if len(data) < 4 { return false }`. -/
def validateZipFileMain (data : List Nat) : Bool :=
  if data.length < 4 then false
  else decide (goSlice data 0 4 = [0x50, 0x4B, 0x03, 0x04])

/-- `validateMSOfficeFile` (office.go lines 25-43). -/
def validateMSOfficeFile (data : List Nat) : Bool :=
  if data.length < 8 then false
  else if !(decide (goSlice data 0 8 = [0xD0, 0xCF, 0x11, 0xE0, 0xA1, 0xB1, 0x1A, 0xE1])) then
    false
  else if data.length > 512 then
    bContains data (strBytes "WordDocument") ||
      bContains data (strBytes "Workbook") ||
      bContains data (strBytes "PowerPoint")
  else true

/-- `validateJpegImproved` (part_002 lines 31-54): SOI prefix plus a reverse
scan for the EOI pair `FF D9` (the scan direction does not affect the
boolean, so presence is expressed with `bContains`). -/
def validateJpegImproved (data : List Nat) : Bool :=
  if data.length < 4 then false
  else if !(bStartsWith data [0xFF, 0xD8, 0xFF]) then false
  else bContains data [0xFF, 0xD9]

/-- `validatePdf` (part_002 lines 56-97). -/
def validatePdf (data : List Nat) : Bool :=
  if data.length < 100 then false
  else if !(bStartsWith data (strBytes "%PDF-")) then false
  else if (if data.length ≥ 8 then
      lexLt (goSlice data 5 8) (strBytes "1.0") ||
        lexLt (strBytes "2.0") (goSlice data 5 8)
    else false) then false
  else if !(bContains data (strBytes "xref")) then false
  else if !(bContains data (strBytes " 0 obj") || bContains data (strBytes "\n0 obj")) then false
  else
    match bLastIndex data (strBytes "%%EOF") with
    | none => false
    | some eofPos =>
      if eofPos + 5 < data.length then
        -- trailer byte check: CR, LF, space or tab
        let trailer := data.getD (eofPos + 5) 0
        if trailer ≠ 13 && trailer ≠ 10 && trailer ≠ 32 && trailer ≠ 9 then false
        else bContains (data.take eofPos) (strBytes "startxref")
      else bContains (data.take eofPos) (strBytes "startxref")

/-- How an `Override` entry's `ContentType` updates the running office kind
(the `switch` in the `[Content_Types].xml` case of `validateOfficeOpenXML`). -/
def applyOverride (t : OfficeFileType) (o : CTOverride) : OfficeFileType :=
  if goContains o.contentType "wordprocessing" then .wordDocument
  else if goContains o.contentType "spreadsheet" then .excelDocument
  else if goContains o.contentType "presentation" then .powerPointDocument
  else t

/-- `validateOfficeOpenXML` from src/internal/extractor/office.go (the
version compiled into the program). In that file the body of the
`"[Content_Types].xml"` case consists only of the placeholder comment
`// ... парсинг XML ...` followed by the loop over `contentTypes.Override`:
`contentTypes` is never unmarshalled (it stays the zero struct, with nil
`Default` and `Override` lists) and `hasContentTypes` is never set, so the
loop over the archive members has no observable effect and the final
`if !hasContentTypes` always returns `false`. -/
def validateOfficeOpenXML (expectedContent : String) (expectedType : OfficeFileType)
    (env : Env) (data : List Nat) : Option Bool :=
  (validateZipFile data).map fun zipOk =>
    if !zipOk then false
    else
      match env.zipParse data with
      | none => false
      | some entries =>
        let contentTypes : ContentTypes := ⟨[], []⟩
        let hasContentTypes := false
        let ofType := entries.foldl
          (fun t e =>
            if e.name = "[Content_Types].xml" then
              contentTypes.overrides.foldl applyOverride t
            else t)
          OfficeFileType.unknownOffice
        if !hasContentTypes then false
        else if ofType ≠ expectedType then false
        else contentTypes.defaults.any fun d => goContains d.contentType expectedContent

/-- State threaded through the member loop of the monolith variant of
`validateOfficeOpenXML` (src/cmd/app/main.go lines 469-573): the current
`contentTypes` value, whether some member parsed (`hasContentTypes`), and
the running `officeInfo.Type`. -/
structure OoxmlScanState where
  contentTypes : ContentTypes
  hasContentTypes : Bool
  ofType : OfficeFileType

/-- One member step of the monolith `validateOfficeOpenXML`. Only the
`"[Content_Types].xml"` case can influence the returned boolean; the
`docProps/app.xml` and `docProps/core.xml` cases update fields of
`officeInfo` that the function never returns. -/
def ooxmlStep (env : Env) (st : OoxmlScanState) (e : ZipEntry) : OoxmlScanState :=
  if e.name = "[Content_Types].xml" then
    match e.content with
    | none => st
    | some bytes =>
      match env.xmlContentTypes bytes with
      | none => st
      | some ct =>
        ⟨ct, true, ct.overrides.foldl applyOverride st.ofType⟩
  else st

/-- The monolith variant of `validateOfficeOpenXML`
(src/cmd/app/main.go lines 469-573), with the XML decoding intact. -/
def validateOfficeOpenXMLMain (expectedContent : String) (expectedType : OfficeFileType)
    (env : Env) (data : List Nat) : Bool :=
  if !validateZipFileMain data then false
  else
    match env.zipParse data with
    | none => false
    | some entries =>
      let st := entries.foldl (ooxmlStep env) ⟨⟨[], []⟩, false, .unknownOffice⟩
      if !st.hasContentTypes then false
      else if st.ofType ≠ expectedType then false
      else st.contentTypes.defaults.any fun d => goContains d.contentType expectedContent

/-- `validateOpenDocument` (office.go lines 108-156). It first calls the
unguarded `validateZipFile`, so it inherits its panic on regions shorter
than 4 bytes. -/
def validateOpenDocument (env : Env) (data : List Nat) : Option Bool :=
  (validateZipFile data).map fun zipOk =>
    if !zipOk then
      if bStartsWith data (strBytes "<?xml version=\"1.0\"?>") then
        bContains data (strBytes "office:document")
      else false
    else
      match env.zipParse data with
      | none => false
      | some entries =>
        let st := entries.foldl
          (fun (st : Bool × Bool) e =>
            if e.name = "mimetype" then
              match e.content with
              | none => st
              | some mimeData =>
                let hit :=
                  bContains mimeData (strBytes "application/vnd.oasis.opendocument.text") ||
                  bContains mimeData (strBytes "application/vnd.oasis.opendocument.spreadsheet") ||
                  bContains mimeData (strBytes "application/vnd.oasis.opendocument.presentation") ||
                  bContains mimeData
                    (strBytes "application/vnd.oasis.opendocument.spreadsheet-template")
                (st.1 || hit, st.2)
            else if e.name = "content.xml" || e.name = "styles.xml" then (st.1, true)
            else st)
          (false, false)
        st.1 && st.2

/-! ### Signature registry and scanner (src/unnamed/part_001) -/

/-- Which validator a registry entry carries. The Go registry stores
closures; the embedding stores tags and dispatches them in `runValidator`,
so that registry entries stay comparable data. -/
inductive ValidatorKind
  | msOffice
  | ooxml (expectedContent : String) (expectedType : OfficeFileType)
  | jpegImproved
  | pdfKind
  | openDocument
  | zipKind
deriving DecidableEq

/-- `extractor.FileSignature` (src/unnamed/part_001 lines 8-13). -/
structure FileSignature where
  extension : String
  magicNumber : List Nat
  offset : Nat
  validator : Option ValidatorKind
deriving DecidableEq

/-- The OOXML validator semantics is a parameter: the program wires in
`validateOfficeOpenXML` from office.go (`oxExtractor`), while the monolith
variant wires the full `validateOfficeOpenXMLMain` (`oxMain`). Theorems
quantify over it where the choice is irrelevant. -/
def OxSem : Type :=
  String → OfficeFileType → Env → List Nat → Option Bool

/-- The OOXML semantics of the compiled program (office.go). -/
def oxExtractor : OxSem := validateOfficeOpenXML

/-- The OOXML semantics of the monolith variant (main.go). -/
def oxMain : OxSem := fun c t env data => some (validateOfficeOpenXMLMain c t env data)

/-- Dispatch a validator tag. `none` propagates a Go panic. -/
def runValidator (ox : OxSem) (env : Env) : ValidatorKind → List Nat → Option Bool
  | .msOffice, data => some (validateMSOfficeFile data)
  | .ooxml c t, data => ox c t env data
  | .jpegImproved, data => some (validateJpegImproved data)
  | .pdfKind, data => some (validatePdf data)
  | .openDocument, data => validateOpenDocument env data
  | .zipKind, data => validateZipFile data

/-- `fileSignatures` (src/unnamed/part_001 lines 15-141), in declaration
order. -/
def fileSignatures : List FileSignature := [
  ⟨"doc", [0xD0, 0xCF, 0x11, 0xE0, 0xA1, 0xB1, 0x1A, 0xE1], 0, some .msOffice⟩,
  ⟨"docx", [0x50, 0x4B, 0x03, 0x04], 0, some (.ooxml "word/" .wordDocument)⟩,
  ⟨"ppt", [0xD0, 0xCF, 0x11, 0xE0, 0xA1, 0xB1, 0x1A, 0xE1], 0, some .msOffice⟩,
  ⟨"pptx", [0x50, 0x4B, 0x03, 0x04], 0, some (.ooxml "ppt/" .powerPointDocument)⟩,
  ⟨"xls", [0xD0, 0xCF, 0x11, 0xE0, 0xA1, 0xB1, 0x1A, 0xE1], 0, some .msOffice⟩,
  ⟨"xlsx", [0x50, 0x4B, 0x03, 0x04], 0, some (.ooxml "xl/" .excelDocument)⟩,
  ⟨"jpg", [0xFF, 0xD8, 0xFF], 0, some .jpegImproved⟩,
  ⟨"jpeg", [0xFF, 0xD8, 0xFF], 0, some .jpegImproved⟩,
  ⟨"pdf", [0x25, 0x50, 0x44, 0x46], 0, some .pdfKind⟩,
  ⟨"rtf", [0x7B, 0x5C, 0x72, 0x74, 0x66, 0x31], 0, none⟩,
  ⟨"odt", [0x50, 0x4B, 0x03, 0x04], 0, some .openDocument⟩,
  ⟨"ods", [0x50, 0x4B, 0x03, 0x04], 0, some .openDocument⟩,
  ⟨"ots", [0x50, 0x4B, 0x03, 0x04], 0, some .openDocument⟩,
  ⟨"fods", [0x3C, 0x3F, 0x78, 0x6D, 0x6C, 0x20, 0x76, 0x65, 0x72, 0x73, 0x69, 0x6F, 0x6E,
            0x3D, 0x22, 0x31, 0x2E, 0x30, 0x22, 0x3F, 0x3E], 0, none⟩,
  ⟨"odp", [0x50, 0x4B, 0x03, 0x04], 0, some .openDocument⟩,
  ⟨"zip", [0x50, 0x4B, 0x03, 0x04], 0, some .zipKind⟩,
  ⟨"html", [0x3C, 0x21, 0x44, 0x4F, 0x43, 0x54, 0x59, 0x50, 0x45, 0x20, 0x68, 0x74, 0x6D,
            0x6C], 0, none⟩,
  ⟨"html", [0x3C, 0x68, 0x74, 0x6D, 0x6C], 0, none⟩,
  ⟨"html", [0x3C, 0x48, 0x54, 0x4D, 0x4C], 0, none⟩]

/-- `GetSupportedExtensions` (src/unnamed/part_001 lines 176-182). -/
def getSupportedExtensions : List String := fileSignatures.map (·.extension)

/-- The registry walk of `FindFileSignatures` (part_001 lines 143-174) over
a remaining list of descriptors. The allow-set is the set of keys mapped to
`true` in the Go `map[string]bool` (the only entries the program creates);
the Go condition `len(allowedExtensions) > 0 && !allowedExtensions[ext]`
becomes a non-empty list not containing the extension. `none` propagates a
validator panic. -/
def findSigsAux (ox : OxSem) (env : Env) (data : List Nat)
    (allowed : List String) : List FileSignature → Option (List FileSignature)
  | [] => some []
  | sig :: rest =>
    if !allowed.isEmpty && !allowed.contains sig.extension then
      findSigsAux ox env data allowed rest
    else if sig.magicNumber.isEmpty then
      findSigsAux ox env data allowed rest
    else if sig.offset + sig.magicNumber.length > data.length then
      findSigsAux ox env data allowed rest
    else if goSlice data sig.offset (sig.offset + sig.magicNumber.length) = sig.magicNumber then
      match sig.validator with
      | some v =>
        match runValidator ox env v data with
        | none => none
        | some true => (findSigsAux ox env data allowed rest).map (sig :: ·)
        | some false => findSigsAux ox env data allowed rest
      | none => (findSigsAux ox env data allowed rest).map (sig :: ·)
    else findSigsAux ox env data allowed rest

/-- `FindFileSignatures` (src/unnamed/part_001 lines 143-174). -/
def findFileSignatures (ox : OxSem) (env : Env) (data : List Nat)
    (allowed : List String) : Option (List FileSignature) :=
  findSigsAux ox env data allowed fileSignatures

/-! ### Extraction (src/internal/extractor/processor.go) -/

/-- `minFileSize` (processor.go line 33): `2 * 1024`. -/
def minFileSize : Nat := 2 * 1024

/-- The binary-office heuristics of `ExtractFile` (processor.go lines
49-100), run only for the exact extensions `doc`, `xls`, `ppt`. -/
def binaryOfficeInfo (data : List Nat) : OfficeDocumentInfo :=
  let t : OfficeFileType :=
    if bContains data (strBytes "WordDocument") then .wordDocument
    else if bContains data (strBytes "Workbook") then .excelDocument
    else if bContains data (strBytes "PowerPoint") then .powerPointDocument
    else .unknownOffice
  let macroFlag := bContains data (strBytes "_VBA_PROJECT")
  if t = .wordDocument || t = .excelDocument || t = .powerPointDocument then
    let hasEncryptedMarker := bContains data (utf16le "Encrypt")
    let hasEncryptionHeader :=
      if data.length > 512 then
        bStartsWith (data.drop 512) [0xFE, 0xFF, 0xFF, 0xFF] ||
          bContains (goSlice data 0 512) (utf16le "EncryptPackage")
      else false
    let isEncryptedFlag :=
      if data.length > 0x200 then
        let protectionFlagOffset : Nat :=
          match t with
          | .wordDocument => 0x0B
          | .excelDocument => 0x2F
          | .powerPointDocument => 0x0F
          | .unknownOffice => 0
        if protectionFlagOffset > 0 && data.length > protectionFlagOffset then
          Nat.land (data.getD protectionFlagOffset 0) 0x01 ≠ 0
        else false
      else false
    let hasEncryptionStream := bContains data (utf16le "EncryptionInfo")
    let enc := hasEncryptedMarker || hasEncryptionHeader || isEncryptedFlag ||
      hasEncryptionStream
    let enc :=
      if macroFlag && bContains data (utf16le "DefaultPassword") then true else enc
    ⟨t, "", enc, macroFlag⟩
  else ⟨t, "", false, macroFlag⟩

/-- The `officeInfo` computed by `ExtractFile` (processor.go lines 44-101):
non-null exactly when the extension starts with `doc`, `xls` or `ppt`;
populated beyond the zero value only for the exact extensions `doc`,
`xls`, `ppt`. -/
def computeOfficeInfo (data : List Nat) (ext : String) : Option OfficeDocumentInfo :=
  if goStartsWith ext "doc" || goStartsWith ext "xls" || goStartsWith ext "ppt" then
    some (if ext = "doc" || ext = "xls" || ext = "ppt" then binaryOfficeInfo data
          else ⟨.unknownOffice, "", false, false⟩)
  else none

/-- The foreign-magic clipping loop of `ExtractFile` (processor.go lines
103-114): for every registry descriptor from index 1 onward with a
non-empty magic, adopt the first occurrence of that magic as the new end
when it is strictly positive and smaller than the current end. -/
def foreignClip (data : List Nat) : List FileSignature → Nat → Nat
  | [], fileEnd => fileEnd
  | sig :: rest, fileEnd =>
    let fileEnd' :=
      if sig.magicNumber.isEmpty then fileEnd
      else
        match bIndex data sig.magicNumber with
        | none => fileEnd
        | some idx => if idx < fileEnd && idx > 0 then idx else fileEnd
    foreignClip data rest fileEnd'

/-- The format-specific refinement switch of `ExtractFile` (processor.go
lines 116-172), restricted to its effect on `fileEnd`. In the `pdf` case
the source binds `fileEnd = idx + 5` and `trailer = data[fileEnd]`; both are
inlined here. The `else if` branch testing for a CR LF pair is unreachable:
it is only evaluated when the byte at `fileEnd` is neither CR nor LF, and
then its own requirement that this byte be CR fails. It is kept as
written. -/
def formatRefine (data : List Nat) (ext : String) (fileEnd : Nat) : Nat :=
  if ext = "jpg" || ext = "jpeg" then
    match bLastIndex data [0xFF, 0xD9] with
    | some i => i + 2
    | none => fileEnd
  else if ext = "pdf" then
    match bLastIndex data (strBytes "%%EOF") with
    | some idx =>
      if idx + 5 < data.length then
        if data.getD (idx + 5) 0 = 13 || data.getD (idx + 5) 0 = 10 then idx + 5 + 1
        else if idx + 5 + 1 < data.length && data.getD (idx + 5) 0 = 13 &&
            data.getD (idx + 5 + 1) 0 = 10 then idx + 5 + 2
        else idx + 5
      else idx + 5
    | none => fileEnd
  else if ext = "zip" || ext = "docx" || ext = "xlsx" || ext = "pptx" || ext = "odt" then
    match bLastIndex data [0x50, 0x4B, 0x05, 0x06] with
    | some z => z + 22
    | none => fileEnd
  else fileEnd

/-- The complete boundary computation of `ExtractFile` (processor.go lines
103-185): start from `len(data)`, clip at foreign magics, apply the
format-specific refinement, then, if the end still equals `len(data)` and
the region is longer than 100 bytes, bound at the next occurrence of the
candidate's own magic, and finally clamp to `len(data)`. -/
def resolveFileEnd (data : List Nat) (sig : FileSignature) : Nat :=
  let fe1 := foreignClip data (fileSignatures.drop 1) data.length
  let fe2 := formatRefine data sig.extension fe1
  let fe3 :=
    if fe2 = data.length && data.length > 100 then
      match bIndex (data.drop 1) sig.magicNumber with
      | some nextSig => nextSig + 1
      | none => fe2
    else fe2
  min fe3 data.length

/-- The display label assigned by `ExtractFile`'s switch (processor.go
lines 42 and 116-172). The inner cases for `ods`, `ots`, `fods`, `odp`
inside the `zip|docx|xlsx|pptx|odt` group are dead and omitted; extensions
with no case keep the initial `strings.ToUpper(ext)`. -/
def fileTypeFor (ext : String) : String :=
  if ext = "jpg" || ext = "jpeg" then "JPEG Image"
  else if ext = "pdf" then "PDF Document"
  else if ext = "zip" || ext = "docx" || ext = "xlsx" || ext = "pptx" || ext = "odt" then
    if ext = "docx" then "Word Document (Open XML)"
    else if ext = "xlsx" then "Excel Workbook (Open XML)"
    else if ext = "pptx" then "PowerPoint Presentation (Open XML)"
    else if ext = "odt" then "OpenDocument Text"
    else "ZIP Archive"
  else if ext = "doc" then "Word Document (Binary)"
  else if ext = "xls" then "Excel Workbook (Binary)"
  else if ext = "ppt" then "PowerPoint Presentation (Binary)"
  else if ext = "rtf" then "Rich Text Format"
  else if ext = "html" then "HTML Document"
  else ⟨ext.data.map Char.toUpper⟩

/-- `ExtractFile`'s error returns (processor.go lines 37 and 188). Write
failures are environment events outside the model: the output sink is
modelled as always accepting the bytes. -/
inductive ExtractErr
  | noSignatures
  | tooSmall
deriving DecidableEq

/-- `ExtractFile`'s success values (processor.go line 199): the returned
size, end position `startPos + fileEnd`, the filename content
`file_%04d.%s` represented by its two fields `counter` and `ext`, the
display label, the office info, and the bytes handed to
`ioutil.WriteFile`. -/
structure ExtractOk where
  size : Nat
  endPos : Nat
  counter : Nat
  ext : String
  fileType : String
  officeInfo : Option OfficeDocumentInfo
  fileData : List Nat
deriving DecidableEq

inductive ExtractRes
  | err (e : ExtractErr)
  | ok (r : ExtractOk)
deriving DecidableEq

/-- `ExtractFile` (processor.go lines 32-200). `none` propagates a panic
from a validator. -/
def extractFile (ox : OxSem) (env : Env) (data : List Nat) (counter : Nat)
    (startPos : Nat) (allowed : List String) : Option ExtractRes := do
  let foundSigs ← findFileSignatures ox env data allowed
  match foundSigs with
  | [] => return .err .noSignatures
  | sig :: _ =>
    let ext := sig.extension
    let officeInfo := computeOfficeInfo data ext
    let fileEnd := resolveFileEnd data sig
    if fileEnd < minFileSize then return .err .tooSmall
    else
      return .ok ⟨fileEnd, startPos + fileEnd, counter, ext, fileTypeFor ext,
        officeInfo, data.take fileEnd⟩

/-! ### Scheduler and worker pool (src/internal/worker/scheduler.go,
src/internal/worker/pool.go) -/

/-- `worker.FileChunk` (pool.go lines 48-53). -/
structure FileChunk where
  data : List Nat
  start : Nat
  counter : Nat
  priority : Nat
deriving DecidableEq

/-- The scheduling loop of `ProcessFile` (scheduler.go lines 121-184),
returning the chunks sent into the `jobs` channel in dispatch order.
Between two scans the two queues hold at most one chunk in total (a scan
happens only when both are empty and enqueues exactly one chunk), so the
bounded send with its 100 ms backoff — which only retries the same
head-of-queue chunk — is modelled as an immediately succeeding send.
`none` propagates a panic out of the scanner call. -/
def scheduleLoop (ox : OxSem) (env : Env) (allowed : List String) (data : List Nat) :
    Nat → Nat → List FileChunk → List FileChunk → Option (List FileChunk)
  | pos, counter, chunk :: oRest, rQ =>
    (scheduleLoop ox env allowed data pos (counter + 1) oRest rQ).map (chunk :: ·)
  | pos, counter, [], chunk :: rRest =>
    (scheduleLoop ox env allowed data pos (counter + 1) [] rRest).map (chunk :: ·)
  | pos, counter, [], [] =>
    if _h : pos < data.length then
      if (data.drop pos).length < 8 then some []
      else
        match findFileSignatures ox env (data.drop pos) allowed with
        | none => none
        | some foundSigs =>
          if foundSigs.any fun s =>
              goStartsWith s.extension "doc" || goStartsWith s.extension "xls" ||
                goStartsWith s.extension "ppt" then
            scheduleLoop ox env allowed data (pos + 1) counter
              [⟨data.drop pos, pos, counter, 1⟩] []
          else
            scheduleLoop ox env allowed data (pos + 1) counter []
              [⟨data.drop pos, pos, counter, 0⟩]
    else some []
termination_by pos _ oQ rQ => 2 * (data.length - pos) + oQ.length + rQ.length
decreasing_by all_goals simp_wf <;> omega

/-- The chunks `ProcessFile` dispatches for a given input, in dispatch
order (scheduler.go: `pos := 0`, `counter := 1`, both queues empty). -/
def processSchedule (ox : OxSem) (env : Env) (data : List Nat)
    (allowed : List String) : Option (List FileChunk) :=
  scheduleLoop ox env allowed data 0 1 [] []

/-- The worker bodies (pool.go lines 58-85): each chunk is processed by
`ExtractFile` with the chunk's data, counter and start. The result list is
paired with the chunks that produced it. -/
def runChunks (ox : OxSem) (env : Env) (allowed : List String) :
    List FileChunk → Option (List (FileChunk × ExtractRes))
  | [] => some []
  | c :: rest => do
    let r ← extractFile ox env c.data c.counter c.start allowed
    let rs ← runChunks ox env allowed rest
    return (c, r) :: rs

/-- The sequence numbers embedded in the names of the files actually
written: `ExtractFile` writes `file_%04d.%s` (formatted from the chunk's
counter) only on its success path, so the written set is the counters of
the successfully extracted chunks. -/
def writtenSeqs (ox : OxSem) (env : Env) (data : List Nat)
    (allowed : List String) : Option (List Nat) := do
  let chunks ← processSchedule ox env data allowed
  let prs ← runChunks ox env allowed chunks
  return prs.filterMap fun pr =>
    match pr.2 with
    | .ok _ => some pr.1.counter
    | .err _ => none

/-! ### Coverage reporting (scheduler.go lines 196-234) -/

/-- The single pass of `analyzeUncoveredAreas` that turns the coverage
bitmap into maximal uncovered runs `(start, end_inclusive)`; `i` is the
current index, `inUnc`/`start` the loop state, and the trailing flush
emits `(start, len - 1)` (here `i - 1`, since `i` has reached the
length). -/
def uncoveredPass : List Bool → Nat → Bool → Nat → List (Nat × Nat)
  | [], i, inUnc, start => if inUnc then [(start, i - 1)] else []
  | v :: rest, i, inUnc, start =>
    if !v && !inUnc then uncoveredPass rest (i + 1) true i
    else if v && inUnc then (start, i - 1) :: uncoveredPass rest (i + 1) false start
    else uncoveredPass rest (i + 1) inUnc start

/-- The merge loop of `analyzeUncoveredAreas` (scheduler.go lines 216-231):
`prev` absorbs the next interval when `current.Start - prev.End < 1024`.
With intervals in increasing order the Go `int` subtraction is the natural
subtraction used here (a negative difference and a zero both satisfy
`< 1024`). -/
def mergeLoop (prev : Nat × Nat) : List (Nat × Nat) → List (Nat × Nat)
  | [] => [prev]
  | cur :: rest =>
    if cur.1 - prev.2 < 1024 then mergeLoop (prev.1, cur.2) rest
    else prev :: mergeLoop cur rest

/-- The merge pass: lists of length ≤ 1 are returned unchanged. -/
def mergeClose (l : List (Nat × Nat)) : List (Nat × Nat) :=
  match l with
  | [] => []
  | [x] => [x]
  | first :: rest => mergeLoop first rest

/-- `analyzeUncoveredAreas` (scheduler.go lines 196-234). -/
def analyzeUncoveredAreas (covered : List Bool) : List (Nat × Nat) :=
  mergeClose (uncoveredPass covered 0 false 0)

/-! ### Named registry entries and concrete inputs used in the theorems -/

/-- The first byte of every registered magic. -/
def magicHeads : List Nat := [0xD0, 0x50, 0xFF, 0x25, 0x7B, 0x3C]

def oleMagic : List Nat := [0xD0, 0xCF, 0x11, 0xE0, 0xA1, 0xB1, 0x1A, 0xE1]
def pkMagic : List Nat := [0x50, 0x4B, 0x03, 0x04]
def rtfMagic : List Nat := [0x7B, 0x5C, 0x72, 0x74, 0x66, 0x31]

def docSig : FileSignature := ⟨"doc", oleMagic, 0, some .msOffice⟩
def pptSig : FileSignature := ⟨"ppt", oleMagic, 0, some .msOffice⟩
def xlsSig : FileSignature := ⟨"xls", oleMagic, 0, some .msOffice⟩
def docxSig : FileSignature := ⟨"docx", pkMagic, 0, some (.ooxml "word/" .wordDocument)⟩
def pptxSig : FileSignature := ⟨"pptx", pkMagic, 0, some (.ooxml "ppt/" .powerPointDocument)⟩
def xlsxSig : FileSignature := ⟨"xlsx", pkMagic, 0, some (.ooxml "xl/" .excelDocument)⟩
def zipSig : FileSignature := ⟨"zip", pkMagic, 0, some .zipKind⟩
def rtfSig : FileSignature := ⟨"rtf", rtfMagic, 0, none⟩
def pdfSig : FileSignature := ⟨"pdf", [0x25, 0x50, 0x44, 0x46], 0, some .pdfKind⟩

/-- An OOXML semantics that accepts everything; used to instantiate
theorems that hold for every choice of OOXML semantics at inputs where the
wired-in validator (which rejects everything) could never produce them. -/
def oxTrue : OxSem := fun _ _ _ _ => some true

/-- An RTF file padded with `n` zero bytes. -/
def rtfFam (n : Nat) : List Nat := rtfMagic ++ List.replicate n 0

/-- A PK-prefixed region padded with `n` zero bytes. -/
def pkFam (n : Nat) : List Nat := pkMagic ++ List.replicate n 0

/-- An MS-OLE region containing the stream-name literal `WordDocument`,
padded with `n` zero bytes. -/
def oleFam (n : Nat) : List Nat := oleMagic ++ strBytes "WordDocument" ++ List.replicate n 0

/-- One junk byte followed by a 2054-byte RTF file: the candidate at
position 0 fails (no signature) and consumes sequence number 1, the
candidate at position 1 succeeds with sequence number 2. -/
def c5Input : List Nat := 0 :: rtfFam 2048

/-- A small PDF region whose last `%%EOF` is followed by CR LF. -/
def pdfCrlf : List Nat := strBytes "%PDF-1.4 %%EOF" ++ [13, 10]

/-- The priority the scheduler computes at position `p` (scheduler.go lines
157-166): 1 when some returned descriptor's extension starts with `doc`,
`xls` or `ppt`, else 0. -/
def prioAt (ox : OxSem) (env : Env) (allowed : List String) (data : List Nat)
    (p : Nat) : Nat :=
  match findFileSignatures ox env (data.drop p) allowed with
  | some sigs =>
    if sigs.any (fun s => goStartsWith s.extension "doc" || goStartsWith s.extension "xls" ||
        goStartsWith s.extension "ppt") then 1 else 0
  | none => 0

/-- The chunk the scheduler builds at position `p` with counter value `c`. -/
def chunkAt (ox : OxSem) (env : Env) (allowed : List String) (data : List Nat)
    (p c : Nat) : FileChunk :=
  ⟨data.drop p, p, c, prioAt ox env allowed data p⟩

/-! ## Lemmas -/

/-! ### Byte-search lemmas -/

theorem isPrefixOf_append_self (l t : List Nat) : l.isPrefixOf (l ++ t) = true := by
  induction l with
  | nil => simp [List.isPrefixOf]
  | cons a as ih => simp [List.isPrefixOf, ih]

theorem bIndexAux_of_head_notin (b : Nat) (m : List Nat) :
    ∀ (hay : List Nat) (i : Nat), b ∉ hay → bIndexAux (b :: m) i hay = none := by
  intro hay
  induction hay with
  | nil => intro i _; simp [bIndexAux, List.isPrefixOf]
  | cons x t ih =>
    intro i hb
    have hbx : b ≠ x := fun h => hb (h ▸ List.mem_cons_self x t)
    have hbt : b ∉ t := fun h => hb (List.mem_cons_of_mem x h)
    rw [bIndexAux.eq_def]
    simp only [List.isPrefixOf, List.cons.injEq]
    have : (b == x) = false := by simp [hbx]
    simp [this, ih i.succ hbt]

theorem bIndex_of_head_notin (b : Nat) (m hay : List Nat) (h : b ∉ hay) :
    bIndex hay (b :: m) = none :=
  bIndexAux_of_head_notin b m hay 0 h

theorem bContains_false_of_head_notin (b : Nat) (m hay : List Nat) (h : b ∉ hay) :
    bContains hay (b :: m) = false := by
  simp [bContains, bIndex_of_head_notin b m hay h]

theorem bIndexAux_of_isPrefixOf (n hay : List Nat) (i : Nat)
    (h : n.isPrefixOf hay = true) : bIndexAux n i hay = some i := by
  rw [bIndexAux.eq_def]
  simp [h]

theorem bIndexAux_cons (n : List Nat) (i x : Nat) (t : List Nat) :
    bIndexAux n i (x :: t) =
      if n.isPrefixOf (x :: t) then some i else bIndexAux n (i + 1) t := by
  rw [bIndexAux.eq_def]

theorem bLastIndexAux_of_head_notin (b : Nat) (m : List Nat) :
    ∀ (hay : List Nat) (i : Nat) (best : Option Nat), b ∉ hay →
      bLastIndexAux (b :: m) i best hay = best := by
  intro hay
  induction hay with
  | nil => intro i best _; simp [bLastIndexAux, List.isPrefixOf]
  | cons x t ih =>
    intro i best hb
    have hbx : b ≠ x := fun h => hb (h ▸ List.mem_cons_self x t)
    have hbt : b ∉ t := fun h => hb (List.mem_cons_of_mem x h)
    rw [bLastIndexAux.eq_def]
    simp only [List.isPrefixOf]
    have : (b == x) = false := by simp [hbx]
    simp [this, ih i.succ best hbt]

theorem bLastIndex_of_head_notin (b : Nat) (m hay : List Nat) (h : b ∉ hay) :
    bLastIndex hay (b :: m) = none :=
  bLastIndexAux_of_head_notin b m hay 0 none h

theorem bLastIndexAux_cons (n : List Nat) (i x : Nat) (best : Option Nat) (t : List Nat) :
    bLastIndexAux n i best (x :: t) =
      bLastIndexAux n (i + 1) (if n.isPrefixOf (x :: t) then some i else best) t := by
  rw [bLastIndexAux.eq_def]

/-! ### Scanner lemmas -/

theorem findSigsAux_skip (ox : OxSem) (env : Env) (data : List Nat)
    (s : FileSignature) (rest : List FileSignature)
    (hm : s.magicNumber ≠ [])
    (h : s.offset + s.magicNumber.length > data.length ∨
      goSlice data s.offset (s.offset + s.magicNumber.length) ≠ s.magicNumber) :
    findSigsAux ox env data [] (s :: rest) = findSigsAux ox env data [] rest := by
  rw [findSigsAux]
  rw [if_neg (by simp), if_neg (by simp [List.isEmpty_iff, hm])]
  rcases h with h | h
  · rw [if_pos h]
  · by_cases hb : s.offset + s.magicNumber.length > data.length
    · rw [if_pos hb]
    · rw [if_neg hb, if_neg h]

theorem findSigsAux_keep (ox : OxSem) (env : Env) (data : List Nat)
    (s : FileSignature) (rest : List FileSignature)
    (hm : s.magicNumber ≠ [])
    (hb : ¬ s.offset + s.magicNumber.length > data.length)
    (hs : goSlice data s.offset (s.offset + s.magicNumber.length) = s.magicNumber)
    (hv : s.validator = none ∨
      ∃ v, s.validator = some v ∧ runValidator ox env v data = some true) :
    findSigsAux ox env data [] (s :: rest) =
      (findSigsAux ox env data [] rest).map (s :: ·) := by
  rw [findSigsAux]
  rw [if_neg (by simp), if_neg (by simp [List.isEmpty_iff, hm]), if_neg hb, if_pos hs]
  rcases hv with hv | ⟨v, hv, hr⟩
  · rw [hv]
  · rw [hv]
    simp [hr]

theorem findSigsAux_skip_val (ox : OxSem) (env : Env) (data : List Nat)
    (s : FileSignature) (rest : List FileSignature)
    (hm : s.magicNumber ≠ [])
    (hb : ¬ s.offset + s.magicNumber.length > data.length)
    (hs : goSlice data s.offset (s.offset + s.magicNumber.length) = s.magicNumber)
    (v : ValidatorKind) (hv : s.validator = some v)
    (hr : runValidator ox env v data = some false) :
    findSigsAux ox env data [] (s :: rest) = findSigsAux ox env data [] rest := by
  rw [findSigsAux]
  rw [if_neg (by simp), if_neg (by simp [List.isEmpty_iff, hm]), if_neg hb, if_pos hs]
  rw [hv]
  simp [hr]

/-- Skip a descriptor whose magic disagrees with the region's first byte. -/
theorem findSigsAux_skip_head (ox : OxSem) (env : Env) (b : Nat) (t : List Nat)
    (s : FileSignature) (rest : List FileSignature) (m0 : Nat) (mrest : List Nat)
    (hoff : s.offset = 0) (hmag : s.magicNumber = m0 :: mrest) (hne : b ≠ m0) :
    findSigsAux ox env (b :: t) [] (s :: rest) = findSigsAux ox env (b :: t) [] rest := by
  apply findSigsAux_skip
  · simp [hmag]
  · right
    rw [hoff, hmag]
    simp [goSlice, List.take_succ_cons, hne]

/-- Every registered magic is non-empty, sits at offset 0 and starts with
one of the six first bytes in `magicHeads`. -/
theorem fileSignatures_heads :
    ∀ s ∈ fileSignatures,
      s.magicNumber ≠ [] ∧ s.magicNumber.headD 0 ∈ magicHeads ∧ s.offset = 0 := by
  decide

/-- The scanner returns the empty list on any region whose first byte is
not the first byte of a registered magic. -/
theorem findFileSignatures_nil_of_head (ox : OxSem) (env : Env) (b : Nat)
    (t : List Nat) (hb : b ∉ magicHeads) :
    findFileSignatures ox env (b :: t) [] = some [] := by
  rw [findFileSignatures]
  have key : ∀ sigs : List FileSignature,
      (∀ s ∈ sigs, s.magicNumber ≠ [] ∧ s.magicNumber.headD 0 ∈ magicHeads ∧ s.offset = 0) →
      findSigsAux ox env (b :: t) [] sigs = some [] := by
    intro sigs
    induction sigs with
    | nil => intro _; rw [findSigsAux]
    | cons s rest ih =>
      intro h
      obtain ⟨hm, hh, hoff⟩ := h s (List.mem_cons_self s rest)
      obtain ⟨m0, mrest, hmag⟩ : ∃ m0 mrest, s.magicNumber = m0 :: mrest := by
        cases hmg : s.magicNumber with
        | nil => exact absurd hmg hm
        | cons a l => exact ⟨a, l, rfl⟩
      have hne : b ≠ m0 := by
        intro hEq
        apply hb
        have : s.magicNumber.headD 0 = m0 := by rw [hmag]; rfl
        rw [← hEq] at this
        rw [← this]
        exact hh
      rw [findSigsAux_skip_head ox env b t s rest m0 mrest hoff hmag hne]
      exact ih fun s' hs' => h s' (List.mem_cons_of_mem s hs')
  exact key fileSignatures fileSignatures_heads

/-- Taking `k` bytes of a zero-padded literal region. -/
theorem take_litrep (lit : List Nat) (n k : Nat) (hk : k - lit.length ≤ n) :
    (lit ++ List.replicate n 0).take k = lit.take k ++ List.replicate (k - lit.length) 0 := by
  rw [List.take_append_eq_append_take, List.take_replicate, Nat.min_eq_left hk]

theorem rtfFam_cons (n : Nat) :
    rtfFam n = 0x7B :: (0x5C :: 0x72 :: 0x74 :: 0x66 :: 0x31 :: List.replicate n 0) := by
  simp [rtfFam, rtfMagic]



theorem findSigs_rtfFam (ox : OxSem) (env : Env) (n : Nat) :
    findFileSignatures ox env (rtfFam n) [] = some [rtfSig] := by
  have hcons := rtfFam_cons n
  rw [findFileSignatures]
  show findSigsAux ox env (rtfFam n) [] fileSignatures = some [rtfSig]
  rw [fileSignatures]
  rw [hcons]
  rw [findSigsAux_skip_head ox env _ _ _ _ _ _ rfl rfl (by decide)]
  rw [findSigsAux_skip_head ox env _ _ _ _ _ _ rfl rfl (by decide)]
  rw [findSigsAux_skip_head ox env _ _ _ _ _ _ rfl rfl (by decide)]
  rw [findSigsAux_skip_head ox env _ _ _ _ _ _ rfl rfl (by decide)]
  rw [findSigsAux_skip_head ox env _ _ _ _ _ _ rfl rfl (by decide)]
  rw [findSigsAux_skip_head ox env _ _ _ _ _ _ rfl rfl (by decide)]
  rw [findSigsAux_skip_head ox env _ _ _ _ _ _ rfl rfl (by decide)]
  rw [findSigsAux_skip_head ox env _ _ _ _ _ _ rfl rfl (by decide)]
  rw [findSigsAux_skip_head ox env _ _ _ _ _ _ rfl rfl (by decide)]
  rw [← hcons]
  rw [findSigsAux_keep ox env _ _ _ (by decide)
    (by simp [rtfFam, rtfMagic])
    (by simp [goSlice, rtfFam]
        rw [List.take_append_of_le_length (by simp [rtfMagic])]
        simp [rtfMagic])
    (Or.inl rfl)]
  rw [hcons]
  rw [findSigsAux_skip_head ox env _ _ _ _ _ _ rfl rfl (by decide)]
  rw [findSigsAux_skip_head ox env _ _ _ _ _ _ rfl rfl (by decide)]
  rw [findSigsAux_skip_head ox env _ _ _ _ _ _ rfl rfl (by decide)]
  rw [findSigsAux_skip_head ox env _ _ _ _ _ _ rfl rfl (by decide)]
  rw [findSigsAux_skip_head ox env _ _ _ _ _ _ rfl rfl (by decide)]
  rw [findSigsAux_skip_head ox env _ _ _ _ _ _ rfl rfl (by decide)]
  rw [findSigsAux_skip_head ox env _ _ _ _ _ _ rfl rfl (by decide)]
  rw [findSigsAux_skip_head ox env _ _ _ _ _ _ rfl rfl (by decide)]
  rw [findSigsAux_skip_head ox env _ _ _ _ _ _ rfl rfl (by decide)]
  rw [findSigsAux]
  rfl

theorem pkFam_cons (n : Nat) :
    pkFam n = 0x50 :: (0x4B :: 0x03 :: 0x04 :: List.replicate n 0) := by
  simp [pkFam, pkMagic]

theorem pkFam_length (n : Nat) : (pkFam n).length = 4 + n := by
  simp [pkFam, pkMagic]; omega

theorem validateZipFile_pkFam (n : Nat) : validateZipFile (pkFam n) = some true := by
  rw [validateZipFile]
  rw [if_neg (by simp [pkFam_length])]
  simp [goSlice, pkFam]
  rw [List.take_append_of_le_length (by simp [pkMagic])]
  simp [pkMagic]

theorem validateOpenDocument_pkFam (n : Nat) :
    validateOpenDocument env0 (pkFam n) = some false := by
  rw [validateOpenDocument, validateZipFile_pkFam]
  simp [env0]

theorem findSigs_pkFam (n : Nat) :
    findFileSignatures oxTrue env0 (pkFam n) [] =
      some [docxSig, pptxSig, xlsxSig, zipSig] := by
  have hcons := pkFam_cons n
  have hslice : goSlice (pkFam n) 0 (0 + 4) = pkMagic := by
    simp [goSlice, pkFam]
    rw [List.take_append_of_le_length (by simp [pkMagic])]
    simp [pkMagic]
  rw [findFileSignatures]
  show findSigsAux oxTrue env0 (pkFam n) [] fileSignatures =
    some [docxSig, pptxSig, xlsxSig, zipSig]
  rw [fileSignatures]
  rw [hcons]
  rw [findSigsAux_skip_head oxTrue env0 _ _ _ _ _ _ rfl rfl (by decide)]  -- doc
  rw [← hcons]
  rw [findSigsAux_keep oxTrue env0 _ _ _ (by decide) (by simp [pkFam_length]) hslice
    (by exact Or.inr ⟨.ooxml "word/" .wordDocument, rfl, rfl⟩)]  -- docx
  rw [hcons]
  rw [findSigsAux_skip_head oxTrue env0 _ _ _ _ _ _ rfl rfl (by decide)]  -- ppt
  rw [← hcons]
  rw [findSigsAux_keep oxTrue env0 _ _ _ (by decide) (by simp [pkFam_length]) hslice
    (by exact Or.inr ⟨.ooxml "ppt/" .powerPointDocument, rfl, rfl⟩)]  -- pptx
  rw [hcons]
  rw [findSigsAux_skip_head oxTrue env0 _ _ _ _ _ _ rfl rfl (by decide)]  -- xls
  rw [← hcons]
  rw [findSigsAux_keep oxTrue env0 _ _ _ (by decide) (by simp [pkFam_length]) hslice
    (by exact Or.inr ⟨.ooxml "xl/" .excelDocument, rfl, rfl⟩)]  -- xlsx
  rw [hcons]
  rw [findSigsAux_skip_head oxTrue env0 _ _ _ _ _ _ rfl rfl (by decide)]  -- jpg
  rw [findSigsAux_skip_head oxTrue env0 _ _ _ _ _ _ rfl rfl (by decide)]  -- jpeg
  rw [findSigsAux_skip_head oxTrue env0 _ _ _ _ _ _ rfl rfl (by decide)]  -- pdf
  rw [findSigsAux_skip_head oxTrue env0 _ _ _ _ _ _ rfl rfl (by decide)]  -- rtf
  rw [← hcons]
  rw [findSigsAux_skip_val oxTrue env0 _ _ _ (by decide) (by simp [pkFam_length]) hslice
    .openDocument (by rfl) (validateOpenDocument_pkFam n)]  -- odt
  rw [findSigsAux_skip_val oxTrue env0 _ _ _ (by decide) (by simp [pkFam_length]) hslice
    .openDocument (by rfl) (validateOpenDocument_pkFam n)]  -- ods
  rw [findSigsAux_skip_val oxTrue env0 _ _ _ (by decide) (by simp [pkFam_length]) hslice
    .openDocument (by rfl) (validateOpenDocument_pkFam n)]  -- ots
  rw [hcons]
  rw [findSigsAux_skip_head oxTrue env0 _ _ _ _ _ _ rfl rfl (by decide)]  -- fods
  rw [← hcons]
  rw [findSigsAux_skip_val oxTrue env0 _ _ _ (by decide) (by simp [pkFam_length]) hslice
    .openDocument (by rfl) (validateOpenDocument_pkFam n)]  -- odp
  rw [findSigsAux_keep oxTrue env0 _ _ _ (by decide) (by simp [pkFam_length]) hslice
    (by exact Or.inr ⟨.zipKind, rfl, validateZipFile_pkFam n⟩)]  -- zip
  rw [hcons]
  rw [findSigsAux_skip_head oxTrue env0 _ _ _ _ _ _ rfl rfl (by decide)]  -- html1
  rw [findSigsAux_skip_head oxTrue env0 _ _ _ _ _ _ rfl rfl (by decide)]  -- html2
  rw [findSigsAux_skip_head oxTrue env0 _ _ _ _ _ _ rfl rfl (by decide)]  -- html3
  rw [findSigsAux]
  rfl



/-- The bytes of the stream-name literal. -/
theorem wdBytes_eq : strBytes "WordDocument" =
    [0x57, 0x6F, 0x72, 0x64, 0x44, 0x6F, 0x63, 0x75, 0x6D, 0x65, 0x6E, 0x74] := by decide

theorem oleFam_cons (n : Nat) :
    oleFam n = 0xD0 :: (0xCF :: 0x11 :: 0xE0 :: 0xA1 :: 0xB1 :: 0x1A :: 0xE1 ::
      0x57 :: 0x6F :: 0x72 :: 0x64 :: 0x44 :: 0x6F :: 0x63 :: 0x75 :: 0x6D :: 0x65 ::
      0x6E :: 0x74 :: List.replicate n 0) := by
  simp [oleFam, oleMagic, wdBytes_eq]

theorem oleFam_length (n : Nat) : (oleFam n).length = 20 + n := by
  simp [oleFam, oleMagic, wdBytes_eq]; omega

theorem bIndexAux_isSome_of_append (needle rest : List Nat) :
    ∀ (pre : List Nat) (i : Nat), (bIndexAux needle i (pre ++ (needle ++ rest))).isSome := by
  intro pre
  induction pre with
  | nil =>
    intro i
    rw [List.nil_append, bIndexAux_of_isPrefixOf _ _ _ (isPrefixOf_append_self _ _)]
    rfl
  | cons x t ih =>
    intro i
    rw [List.cons_append, bIndexAux_cons]
    split
    · rfl
    · exact ih (i + 1)

theorem bContains_of_append (pre needle rest : List Nat) :
    bContains (pre ++ (needle ++ rest)) needle = true := by
  simp [bContains, bIndex, bIndexAux_isSome_of_append]

theorem validateMSOfficeFile_oleFam (n : Nat) (hn : 493 ≤ n) :
    validateMSOfficeFile (oleFam n) = true := by
  rw [validateMSOfficeFile]
  rw [if_neg (by simp [oleFam_length]; omega)]
  have hsl : goSlice (oleFam n) 0 8 = [0xD0, 0xCF, 0x11, 0xE0, 0xA1, 0xB1, 0x1A, 0xE1] := by
    simp [goSlice, oleFam, oleMagic]
  rw [hsl]
  rw [if_neg (by simp)]
  rw [if_pos (by simp [oleFam_length]; omega)]
  have hwd : bContains (oleFam n) (strBytes "WordDocument") = true := by
    rw [oleFam, List.append_assoc]
    exact bContains_of_append _ _ _
  rw [hwd]
  rfl

theorem findSigs_oleFam (ox : OxSem) (env : Env) (n : Nat) (hn : 493 ≤ n) :
    findFileSignatures ox env (oleFam n) [] = some [docSig, pptSig, xlsSig] := by
  have hcons := oleFam_cons n
  have hslice : goSlice (oleFam n) 0 (0 + 8) = oleMagic := by
    simp [goSlice, oleFam, oleMagic]
  have hval : runValidator ox env .msOffice (oleFam n) = some true := by
    show some (validateMSOfficeFile (oleFam n)) = some true
    rw [validateMSOfficeFile_oleFam n hn]
  rw [findFileSignatures]
  show findSigsAux ox env (oleFam n) [] fileSignatures = some [docSig, pptSig, xlsSig]
  rw [fileSignatures]
  rw [findSigsAux_keep ox env _ _ _ (by decide) (by simp [oleFam_length]; omega) hslice
    (by exact Or.inr ⟨.msOffice, rfl, hval⟩)]  -- doc
  rw [hcons]
  rw [findSigsAux_skip_head ox env _ _ _ _ _ _ rfl rfl (by decide)]  -- docx
  rw [← hcons]
  rw [findSigsAux_keep ox env _ _ _ (by decide) (by simp [oleFam_length]; omega) hslice
    (by exact Or.inr ⟨.msOffice, rfl, hval⟩)]  -- ppt
  rw [hcons]
  rw [findSigsAux_skip_head ox env _ _ _ _ _ _ rfl rfl (by decide)]  -- pptx
  rw [← hcons]
  rw [findSigsAux_keep ox env _ _ _ (by decide) (by simp [oleFam_length]; omega) hslice
    (by exact Or.inr ⟨.msOffice, rfl, hval⟩)]  -- xls
  rw [hcons]
  rw [findSigsAux_skip_head ox env _ _ _ _ _ _ rfl rfl (by decide)]  -- xlsx
  rw [findSigsAux_skip_head ox env _ _ _ _ _ _ rfl rfl (by decide)]  -- jpg
  rw [findSigsAux_skip_head ox env _ _ _ _ _ _ rfl rfl (by decide)]  -- jpeg
  rw [findSigsAux_skip_head ox env _ _ _ _ _ _ rfl rfl (by decide)]  -- pdf
  rw [findSigsAux_skip_head ox env _ _ _ _ _ _ rfl rfl (by decide)]  -- rtf
  rw [findSigsAux_skip_head ox env _ _ _ _ _ _ rfl rfl (by decide)]  -- odt
  rw [findSigsAux_skip_head ox env _ _ _ _ _ _ rfl rfl (by decide)]  -- ods
  rw [findSigsAux_skip_head ox env _ _ _ _ _ _ rfl rfl (by decide)]  -- ots
  rw [findSigsAux_skip_head ox env _ _ _ _ _ _ rfl rfl (by decide)]  -- fods
  rw [findSigsAux_skip_head ox env _ _ _ _ _ _ rfl rfl (by decide)]  -- odp
  rw [findSigsAux_skip_head ox env _ _ _ _ _ _ rfl rfl (by decide)]  -- zip
  rw [findSigsAux_skip_head ox env _ _ _ _ _ _ rfl rfl (by decide)]  -- html1
  rw [findSigsAux_skip_head ox env _ _ _ _ _ _ rfl rfl (by decide)]  -- html2
  rw [findSigsAux_skip_head ox env _ _ _ _ _ _ rfl rfl (by decide)]  -- html3
  rw [findSigsAux]
  rfl



/-! ### Boundary-resolution lemmas -/

theorem foreignClip_id (data : List Nat) :
    ∀ (sigs : List FileSignature) (fe : Nat),
      (∀ s ∈ sigs, bIndex data s.magicNumber = none ∨ bIndex data s.magicNumber = some 0) →
      foreignClip data sigs fe = fe := by
  intro sigs
  induction sigs with
  | nil => intro fe _; rw [foreignClip]
  | cons s rest ih =>
    intro fe h
    rw [foreignClip]
    have hrest := fun s' hs' => h s' (List.mem_cons_of_mem s hs')
    rcases h s (List.mem_cons_self s rest) with h0 | h0
    · rw [h0]
      simp only [ite_self]
      exact ih fe hrest
    · rw [h0]
      simp only [gt_iff_lt, Nat.lt_irrefl, decide_False, Bool.and_false, Bool.false_eq_true,
        if_false, ite_self]
      exact ih fe hrest

theorem rtfFam_length (n : Nat) : (rtfFam n).length = 6 + n := by
  simp [rtfFam, rtfMagic]; omega

theorem notin_rtfFam (b : Nat) (hb : b ∉ ([0x7B, 0x5C, 0x72, 0x74, 0x66, 0x31, 0] : List Nat)) :
    b ∉ rtfFam n := by
  intro hmem
  apply hb
  rw [rtfFam] at hmem
  rcases List.mem_append.1 hmem with h | h
  · rw [rtfMagic] at h; simp at h; rcases h with h|h|h|h|h|h <;> simp [h]
  · have := (List.eq_of_mem_replicate h); simp [this]

theorem rtf_foreign_facts :
    ∀ s ∈ fileSignatures.drop 1,
      bIndex (rtfFam n) s.magicNumber = none ∨ bIndex (rtfFam n) s.magicNumber = some 0 := by
  intro s hs
  have hreg : fileSignatures.drop 1 =
      [⟨"docx", pkMagic, 0, some (.ooxml "word/" .wordDocument)⟩,
       ⟨"ppt", oleMagic, 0, some .msOffice⟩,
       ⟨"pptx", pkMagic, 0, some (.ooxml "ppt/" .powerPointDocument)⟩,
       ⟨"xls", oleMagic, 0, some .msOffice⟩,
       ⟨"xlsx", pkMagic, 0, some (.ooxml "xl/" .excelDocument)⟩,
       ⟨"jpg", [0xFF, 0xD8, 0xFF], 0, some .jpegImproved⟩,
       ⟨"jpeg", [0xFF, 0xD8, 0xFF], 0, some .jpegImproved⟩,
       ⟨"pdf", [0x25, 0x50, 0x44, 0x46], 0, some .pdfKind⟩,
       ⟨"rtf", rtfMagic, 0, none⟩,
       ⟨"odt", pkMagic, 0, some .openDocument⟩,
       ⟨"ods", pkMagic, 0, some .openDocument⟩,
       ⟨"ots", pkMagic, 0, some .openDocument⟩,
       ⟨"fods", [0x3C, 0x3F, 0x78, 0x6D, 0x6C, 0x20, 0x76, 0x65, 0x72, 0x73, 0x69, 0x6F,
         0x6E, 0x3D, 0x22, 0x31, 0x2E, 0x30, 0x22, 0x3F, 0x3E], 0, none⟩,
       ⟨"odp", pkMagic, 0, some .openDocument⟩,
       ⟨"zip", pkMagic, 0, some .zipKind⟩,
       ⟨"html", [0x3C, 0x21, 0x44, 0x4F, 0x43, 0x54, 0x59, 0x50, 0x45, 0x20, 0x68, 0x74,
         0x6D, 0x6C], 0, none⟩,
       ⟨"html", [0x3C, 0x68, 0x74, 0x6D, 0x6C], 0, none⟩,
       ⟨"html", [0x3C, 0x48, 0x54, 0x4D, 0x4C], 0, none⟩] := by decide
  rw [hreg] at hs
  fin_cases hs
  · exact Or.inl (bIndex_of_head_notin _ _ _ (notin_rtfFam 0x50 (by decide)))
  · exact Or.inl (bIndex_of_head_notin _ _ _ (notin_rtfFam 0xD0 (by decide)))
  · exact Or.inl (bIndex_of_head_notin _ _ _ (notin_rtfFam 0x50 (by decide)))
  · exact Or.inl (bIndex_of_head_notin _ _ _ (notin_rtfFam 0xD0 (by decide)))
  · exact Or.inl (bIndex_of_head_notin _ _ _ (notin_rtfFam 0x50 (by decide)))
  · exact Or.inl (bIndex_of_head_notin _ _ _ (notin_rtfFam 0xFF (by decide)))
  · exact Or.inl (bIndex_of_head_notin _ _ _ (notin_rtfFam 0xFF (by decide)))
  · exact Or.inl (bIndex_of_head_notin _ _ _ (notin_rtfFam 0x25 (by decide)))
  · exact Or.inr (by
      rw [bIndex, bIndexAux_of_isPrefixOf]
      exact isPrefixOf_append_self rtfMagic _)
  · exact Or.inl (bIndex_of_head_notin _ _ _ (notin_rtfFam 0x50 (by decide)))
  · exact Or.inl (bIndex_of_head_notin _ _ _ (notin_rtfFam 0x50 (by decide)))
  · exact Or.inl (bIndex_of_head_notin _ _ _ (notin_rtfFam 0x50 (by decide)))
  · exact Or.inl (bIndex_of_head_notin _ _ _ (notin_rtfFam 0x3C (by decide)))
  · exact Or.inl (bIndex_of_head_notin _ _ _ (notin_rtfFam 0x50 (by decide)))
  · exact Or.inl (bIndex_of_head_notin _ _ _ (notin_rtfFam 0x50 (by decide)))
  · exact Or.inl (bIndex_of_head_notin _ _ _ (notin_rtfFam 0x3C (by decide)))
  · exact Or.inl (bIndex_of_head_notin _ _ _ (notin_rtfFam 0x3C (by decide)))
  · exact Or.inl (bIndex_of_head_notin _ _ _ (notin_rtfFam 0x3C (by decide)))

theorem resolveFileEnd_rtfFam (n : Nat) : resolveFileEnd (rtfFam n) rtfSig = 6 + n := by
  have hodx : bIndex ((rtfFam n).drop 1) rtfSig.magicNumber = none := by
    have hd : (rtfFam n).drop 1 = 0x5C :: (0x72 :: 0x74 :: 0x66 :: 0x31 :: List.replicate n 0) := by
      rw [rtfFam_cons]; rfl
    rw [hd]
    refine bIndex_of_head_notin _ _ _ ?hnot
    intro hmem
    simp [List.mem_replicate] at hmem
  have href : ∀ fe, formatRefine (rtfFam n) rtfSig.extension fe = fe := by
    intro fe
    rw [formatRefine]
    rw [if_neg (by decide), if_neg (by decide), if_neg (by decide)]
  simp only [resolveFileEnd]
  rw [foreignClip_id _ _ _ rtf_foreign_facts, href, hodx]
  simp [rtfFam_length]



theorem fileSignatures_drop1_eq : fileSignatures.drop 1 =
    [⟨"docx", pkMagic, 0, some (.ooxml "word/" .wordDocument)⟩,
     ⟨"ppt", oleMagic, 0, some .msOffice⟩,
     ⟨"pptx", pkMagic, 0, some (.ooxml "ppt/" .powerPointDocument)⟩,
     ⟨"xls", oleMagic, 0, some .msOffice⟩,
     ⟨"xlsx", pkMagic, 0, some (.ooxml "xl/" .excelDocument)⟩,
     ⟨"jpg", [0xFF, 0xD8, 0xFF], 0, some .jpegImproved⟩,
     ⟨"jpeg", [0xFF, 0xD8, 0xFF], 0, some .jpegImproved⟩,
     ⟨"pdf", [0x25, 0x50, 0x44, 0x46], 0, some .pdfKind⟩,
     ⟨"rtf", rtfMagic, 0, none⟩,
     ⟨"odt", pkMagic, 0, some .openDocument⟩,
     ⟨"ods", pkMagic, 0, some .openDocument⟩,
     ⟨"ots", pkMagic, 0, some .openDocument⟩,
     ⟨"fods", [0x3C, 0x3F, 0x78, 0x6D, 0x6C, 0x20, 0x76, 0x65, 0x72, 0x73, 0x69, 0x6F,
       0x6E, 0x3D, 0x22, 0x31, 0x2E, 0x30, 0x22, 0x3F, 0x3E], 0, none⟩,
     ⟨"odp", pkMagic, 0, some .openDocument⟩,
     ⟨"zip", pkMagic, 0, some .zipKind⟩,
     ⟨"html", [0x3C, 0x21, 0x44, 0x4F, 0x43, 0x54, 0x59, 0x50, 0x45, 0x20, 0x68, 0x74,
       0x6D, 0x6C], 0, none⟩,
     ⟨"html", [0x3C, 0x68, 0x74, 0x6D, 0x6C], 0, none⟩,
     ⟨"html", [0x3C, 0x48, 0x54, 0x4D, 0x4C], 0, none⟩] := by decide

theorem notin_pkFam (n : Nat) (b : Nat)
    (hb : b ∉ ([0x50, 0x4B, 0x03, 0x04, 0] : List Nat)) : b ∉ pkFam n := by
  intro hmem
  apply hb
  rw [pkFam] at hmem
  rcases List.mem_append.1 hmem with h | h
  · rw [pkMagic] at h; simp at h; rcases h with h|h|h|h <;> simp [h]
  · have := List.eq_of_mem_replicate h; simp [this]

theorem notin_oleFam (n : Nat) (b : Nat)
    (hb : b ∉ ([0xD0, 0xCF, 0x11, 0xE0, 0xA1, 0xB1, 0x1A, 0xE1, 0x57, 0x6F, 0x72, 0x64,
      0x44, 0x63, 0x75, 0x6D, 0x65, 0x6E, 0x74, 0] : List Nat)) : b ∉ oleFam n := by
  intro hmem
  apply hb
  rw [oleFam] at hmem
  rcases List.mem_append.1 hmem with h | h
  · rcases List.mem_append.1 h with h | h
    · rw [oleMagic] at h; simp at h
      rcases h with h|h|h|h|h|h|h|h <;> simp [h]
    · rw [wdBytes_eq] at h; simp at h
      rcases h with h|h|h|h|h|h|h|h|h|h|h|h <;> simp [h]
  · have := List.eq_of_mem_replicate h; simp [this]

theorem pk_foreign_facts (n : Nat) :
    ∀ s ∈ fileSignatures.drop 1,
      bIndex (pkFam n) s.magicNumber = none ∨ bIndex (pkFam n) s.magicNumber = some 0 := by
  intro s hs
  have hpk : bIndex (pkFam n) pkMagic = some 0 := by
    rw [bIndex, bIndexAux_of_isPrefixOf]
    exact isPrefixOf_append_self pkMagic _
  rw [fileSignatures_drop1_eq] at hs
  fin_cases hs
  · exact Or.inr hpk
  · exact Or.inl (bIndex_of_head_notin _ _ _ (notin_pkFam n 0xD0 (by decide)))
  · exact Or.inr hpk
  · exact Or.inl (bIndex_of_head_notin _ _ _ (notin_pkFam n 0xD0 (by decide)))
  · exact Or.inr hpk
  · exact Or.inl (bIndex_of_head_notin _ _ _ (notin_pkFam n 0xFF (by decide)))
  · exact Or.inl (bIndex_of_head_notin _ _ _ (notin_pkFam n 0xFF (by decide)))
  · exact Or.inl (bIndex_of_head_notin _ _ _ (notin_pkFam n 0x25 (by decide)))
  · exact Or.inl (bIndex_of_head_notin _ _ _ (notin_pkFam n 0x7B (by decide)))
  · exact Or.inr hpk
  · exact Or.inr hpk
  · exact Or.inr hpk
  · exact Or.inl (bIndex_of_head_notin _ _ _ (notin_pkFam n 0x3C (by decide)))
  · exact Or.inr hpk
  · exact Or.inr hpk
  · exact Or.inl (bIndex_of_head_notin _ _ _ (notin_pkFam n 0x3C (by decide)))
  · exact Or.inl (bIndex_of_head_notin _ _ _ (notin_pkFam n 0x3C (by decide)))
  · exact Or.inl (bIndex_of_head_notin _ _ _ (notin_pkFam n 0x3C (by decide)))

theorem ole_foreign_facts (n : Nat) :
    ∀ s ∈ fileSignatures.drop 1,
      bIndex (oleFam n) s.magicNumber = none ∨ bIndex (oleFam n) s.magicNumber = some 0 := by
  intro s hs
  have hole : bIndex (oleFam n) oleMagic = some 0 := by
    rw [bIndex, bIndexAux_of_isPrefixOf]
    rw [oleFam, List.append_assoc]
    exact isPrefixOf_append_self oleMagic _
  rw [fileSignatures_drop1_eq] at hs
  fin_cases hs
  · exact Or.inl (bIndex_of_head_notin _ _ _ (notin_oleFam n 0x50 (by decide)))
  · exact Or.inr hole
  · exact Or.inl (bIndex_of_head_notin _ _ _ (notin_oleFam n 0x50 (by decide)))
  · exact Or.inr hole
  · exact Or.inl (bIndex_of_head_notin _ _ _ (notin_oleFam n 0x50 (by decide)))
  · exact Or.inl (bIndex_of_head_notin _ _ _ (notin_oleFam n 0xFF (by decide)))
  · exact Or.inl (bIndex_of_head_notin _ _ _ (notin_oleFam n 0xFF (by decide)))
  · exact Or.inl (bIndex_of_head_notin _ _ _ (notin_oleFam n 0x25 (by decide)))
  · exact Or.inl (bIndex_of_head_notin _ _ _ (notin_oleFam n 0x7B (by decide)))
  · exact Or.inl (bIndex_of_head_notin _ _ _ (notin_oleFam n 0x50 (by decide)))
  · exact Or.inl (bIndex_of_head_notin _ _ _ (notin_oleFam n 0x50 (by decide)))
  · exact Or.inl (bIndex_of_head_notin _ _ _ (notin_oleFam n 0x50 (by decide)))
  · exact Or.inl (bIndex_of_head_notin _ _ _ (notin_oleFam n 0x3C (by decide)))
  · exact Or.inl (bIndex_of_head_notin _ _ _ (notin_oleFam n 0x50 (by decide)))
  · exact Or.inl (bIndex_of_head_notin _ _ _ (notin_oleFam n 0x50 (by decide)))
  · exact Or.inl (bIndex_of_head_notin _ _ _ (notin_oleFam n 0x3C (by decide)))
  · exact Or.inl (bIndex_of_head_notin _ _ _ (notin_oleFam n 0x3C (by decide)))
  · exact Or.inl (bIndex_of_head_notin _ _ _ (notin_oleFam n 0x3C (by decide)))

theorem bLastIndex_pkFam_eocd (n : Nat) :
    bLastIndex (pkFam n) [0x50, 0x4B, 0x05, 0x06] = none := by
  rw [bLastIndex, pkFam_cons]
  simp only [bLastIndexAux_cons, List.isPrefixOf]
  norm_num
  exact bLastIndexAux_of_head_notin 0x50 _ _ _ _ (by
    intro hmem
    have := List.eq_of_mem_replicate hmem
    simp at this)

theorem resolveFileEnd_pkFam (n : Nat) : resolveFileEnd (pkFam n) docxSig = 4 + n := by
  have hodx : bIndex ((pkFam n).drop 1) docxSig.magicNumber = none := by
    have hd : (pkFam n).drop 1 = 0x4B :: (0x03 :: 0x04 :: List.replicate n 0) := by
      rw [pkFam_cons]; rfl
    rw [hd]
    refine bIndex_of_head_notin _ _ _ ?_
    intro hmem
    simp [List.mem_replicate] at hmem
  have href : ∀ fe, formatRefine (pkFam n) docxSig.extension fe = fe := by
    intro fe
    rw [formatRefine]
    rw [if_neg (by decide), if_neg (by decide), if_pos (by decide)]
    rw [bLastIndex_pkFam_eocd n]
  simp only [resolveFileEnd]
  rw [foreignClip_id _ _ _ (pk_foreign_facts n), href, hodx]
  simp [pkFam_length]

theorem resolveFileEnd_oleFam (n : Nat) : resolveFileEnd (oleFam n) docSig = 20 + n := by
  have hodx : bIndex ((oleFam n).drop 1) docSig.magicNumber = none := by
    have hd : (oleFam n).drop 1 = 0xCF :: (0x11 :: 0xE0 :: 0xA1 :: 0xB1 :: 0x1A :: 0xE1 ::
        0x57 :: 0x6F :: 0x72 :: 0x64 :: 0x44 :: 0x6F :: 0x63 :: 0x75 :: 0x6D :: 0x65 ::
        0x6E :: 0x74 :: List.replicate n 0) := by
      rw [oleFam_cons]; rfl
    rw [hd]
    refine bIndex_of_head_notin _ _ _ ?_
    intro hmem
    simp [List.mem_replicate] at hmem
  have href : ∀ fe, formatRefine (oleFam n) docSig.extension fe = fe := by
    intro fe
    rw [formatRefine]
    rw [if_neg (by decide), if_neg (by decide), if_neg (by decide)]
  simp only [resolveFileEnd]
  rw [foreignClip_id _ _ _ (ole_foreign_facts n), href, hodx]
  simp [oleFam_length]



/-! ### Office-info lemmas -/

theorem computeOfficeInfo_rtf (data : List Nat) : computeOfficeInfo data "rtf" = none := by
  rw [computeOfficeInfo, if_neg (by decide)]

theorem computeOfficeInfo_docx (data : List Nat) :
    computeOfficeInfo data "docx" = some ⟨.unknownOffice, "", false, false⟩ := by
  rw [computeOfficeInfo, if_pos (by decide), if_neg (by decide)]

theorem utf16_encrypt_head : utf16le "Encrypt" = 0x45 :: (utf16le "Encrypt").tail := by decide

theorem binaryOfficeInfo_oleFam (n : Nat) (hn : 493 ≤ n) :
    binaryOfficeInfo (oleFam n) = ⟨.wordDocument, "", false, false⟩ := by
  have hwd : bContains (oleFam n) (strBytes "WordDocument") = true := by
    rw [oleFam, List.append_assoc]
    exact bContains_of_append _ _ _
  have hvba : bContains (oleFam n) (strBytes "_VBA_PROJECT") = false := by
    have he : strBytes "_VBA_PROJECT" =
        0x5F :: [0x56, 0x42, 0x41, 0x5F, 0x50, 0x52, 0x4F, 0x4A, 0x45, 0x43, 0x54] := by decide
    rw [he]
    exact bContains_false_of_head_notin _ _ _ (notin_oleFam n 0x5F (by decide))
  have hencMark : bContains (oleFam n) (utf16le "Encrypt") = false := by
    rw [utf16_encrypt_head]
    exact bContains_false_of_head_notin _ _ _ (notin_oleFam n 0x45 (by decide))
  have hdrop : bStartsWith ((oleFam n).drop 512) [0xFE, 0xFF, 0xFF, 0xFF] = false := by
    have hlen : ((oleMagic ++ strBytes "WordDocument") : List Nat).length = 20 := by decide
    have hd : (oleFam n).drop 512 = List.replicate (n - 492) 0 := by
      rw [oleFam, List.drop_append_eq_append_drop]
      rw [List.drop_eq_nil_of_le (by rw [hlen]; omega), hlen, List.drop_replicate]
      norm_num
    rw [hd]
    obtain ⟨k, hk⟩ : ∃ k, n - 492 = k + 1 := ⟨n - 493, by omega⟩
    rw [hk, List.replicate_succ]
    simp [bStartsWith, List.isPrefixOf]
  have hencPack : bContains (goSlice (oleFam n) 0 512) (utf16le "EncryptPackage") = false := by
    have he : utf16le "EncryptPackage" = 0x45 :: (utf16le "EncryptPackage").tail := by decide
    rw [he]
    refine bContains_false_of_head_notin _ _ _ ?_
    intro hmem
    have h512 : (0x45 : Nat) ∈ oleFam n := by
      simp only [goSlice, List.drop_zero] at hmem
      exact List.mem_of_mem_take hmem
    exact notin_oleFam n 0x45 (by decide) h512
  have hgetD : (oleFam n).getD 0x0B 0 = 0x64 := by
    rw [oleFam_cons]
    rfl
  have hencInfo : bContains (oleFam n) (utf16le "EncryptionInfo") = false := by
    have he : utf16le "EncryptionInfo" = 0x45 :: (utf16le "EncryptionInfo").tail := by decide
    rw [he]
    exact bContains_false_of_head_notin _ _ _ (notin_oleFam n 0x45 (by decide))
  rw [binaryOfficeInfo]
  rw [hwd]
  simp only [if_true, if_pos]
  rw [hvba, hencMark, hdrop, hencPack, hgetD, hencInfo]
  have hlen512 : (oleFam n).length > 512 := by rw [oleFam_length]; omega
  have hlen200 : (oleFam n).length > 0x200 := by rw [oleFam_length]; omega
  have hlen11 : (oleFam n).length > 0x0B := by rw [oleFam_length]; omega
  have hland : Nat.land 0x64 0x01 = 0 := by decide
  simp [hlen512, hlen200, hlen11, hland]

theorem computeOfficeInfo_oleFam (n : Nat) (hn : 493 ≤ n) :
    computeOfficeInfo (oleFam n) "doc" = some ⟨.wordDocument, "", false, false⟩ := by
  rw [computeOfficeInfo, if_pos (by decide), if_pos (by decide),
    binaryOfficeInfo_oleFam n hn]

/-! ### Extraction lemmas -/

theorem extractFile_of_sigs (ox : OxSem) (env : Env) (data : List Nat)
    (counter startPos : Nat) (allowed : List String) (sig : FileSignature)
    (rest : List FileSignature)
    (h : findFileSignatures ox env data allowed = some (sig :: rest)) :
    extractFile ox env data counter startPos allowed =
      some (if resolveFileEnd data sig < minFileSize then .err .tooSmall
        else .ok ⟨resolveFileEnd data sig, startPos + resolveFileEnd data sig, counter,
          sig.extension, fileTypeFor sig.extension, computeOfficeInfo data sig.extension,
          data.take (resolveFileEnd data sig)⟩) := by
  rw [extractFile]
  simp only [h, Option.bind_eq_bind, Option.some_bind]
  split <;> rfl

theorem extractFile_of_no_sigs (ox : OxSem) (env : Env) (data : List Nat)
    (counter startPos : Nat) (allowed : List String)
    (h : findFileSignatures ox env data allowed = some []) :
    extractFile ox env data counter startPos allowed = some (.err .noSignatures) := by
  rw [extractFile]
  simp only [h, Option.bind_eq_bind, Option.some_bind]
  rfl

theorem extractFile_rtfFam (ox : OxSem) (env : Env) (n counter startPos : Nat) :
    extractFile ox env (rtfFam n) counter startPos [] =
      some (if 6 + n < minFileSize then .err .tooSmall
        else .ok ⟨6 + n, startPos + (6 + n), counter, "rtf", "Rich Text Format",
          none, rtfFam n⟩) := by
  rw [extractFile_of_sigs ox env _ counter startPos [] rtfSig []
    (findSigs_rtfFam ox env n)]
  rw [resolveFileEnd_rtfFam n]
  have htk : (rtfFam n).take (6 + n) = rtfFam n := by
    rw [← rtfFam_length n]
    exact List.take_length _
  rw [htk]
  simp only [rtfSig]
  rw [computeOfficeInfo_rtf]
  rfl

theorem extractFile_pkFam (n counter startPos : Nat) :
    extractFile oxTrue env0 (pkFam n) counter startPos [] =
      some (if 4 + n < minFileSize then .err .tooSmall
        else .ok ⟨4 + n, startPos + (4 + n), counter, "docx", "Word Document (Open XML)",
          some ⟨.unknownOffice, "", false, false⟩, pkFam n⟩) := by
  rw [extractFile_of_sigs oxTrue env0 _ counter startPos [] docxSig _
    (findSigs_pkFam n)]
  rw [resolveFileEnd_pkFam n]
  have htk : (pkFam n).take (4 + n) = pkFam n := by
    rw [← pkFam_length n]
    exact List.take_length _
  rw [htk]
  simp only [docxSig]
  rw [computeOfficeInfo_docx]
  rfl

theorem extractFile_oleFam (ox : OxSem) (env : Env) (n counter startPos : Nat)
    (hn : 493 ≤ n) :
    extractFile ox env (oleFam n) counter startPos [] =
      some (if 20 + n < minFileSize then .err .tooSmall
        else .ok ⟨20 + n, startPos + (20 + n), counter, "doc", "Word Document (Binary)",
          some ⟨.wordDocument, "", false, false⟩, oleFam n⟩) := by
  rw [extractFile_of_sigs ox env _ counter startPos [] docSig _
    (findSigs_oleFam ox env n hn)]
  rw [resolveFileEnd_oleFam n]
  have htk : (oleFam n).take (20 + n) = oleFam n := by
    rw [← oleFam_length n]
    exact List.take_length _
  rw [htk]
  simp only [docSig]
  rw [computeOfficeInfo_oleFam n hn]
  rfl



theorem scheduleLoop_dispatch_office (ox : OxSem) (env : Env) (allowed : List String)
    (data : List Nat) (pos c : Nat) (chunk : FileChunk) :
    scheduleLoop ox env allowed data pos c [chunk] [] =
      (scheduleLoop ox env allowed data pos (c + 1) [] []).map (chunk :: ·) := by
  rw [scheduleLoop]

theorem scheduleLoop_dispatch_regular (ox : OxSem) (env : Env) (allowed : List String)
    (data : List Nat) (pos c : Nat) (chunk : FileChunk) :
    scheduleLoop ox env allowed data pos c [] [chunk] =
      (scheduleLoop ox env allowed data pos (c + 1) [] []).map (chunk :: ·) := by
  rw [scheduleLoop]

/-- From a state with both queues empty, the loop dispatches exactly one
chunk per position from `pos` to `data.length - 8`, with consecutive
counter values, provided the scanner is defined at every scanned
position. -/
theorem scheduleLoop_spec (ox : OxSem) (env : Env) (allowed : List String)
    (data : List Nat) :
    ∀ (k pos c : Nat), data.length - pos ≤ k →
      (∀ p, pos ≤ p → p + 8 ≤ data.length →
        (findFileSignatures ox env (data.drop p) allowed).isSome) →
      scheduleLoop ox env allowed data pos c [] [] =
        some ((List.range' pos (data.length - 7 - pos)).map
          (fun p => chunkAt ox env allowed data p (c + (p - pos)))) := by
  intro k
  induction k with
  | zero =>
    intro pos c hk _
    rw [scheduleLoop, dif_neg (by omega)]
    have h0 : data.length - 7 - pos = 0 := by omega
    rw [h0]
    rfl
  | succ k ih =>
    intro pos c hk hscan
    by_cases hpos : pos < data.length
    · by_cases hrem : (data.drop pos).length < 8
      · rw [scheduleLoop, dif_pos hpos, if_pos hrem]
        have h0 : data.length - 7 - pos = 0 := by
          rw [List.length_drop] at hrem
          omega
        rw [h0]
        rfl
      · have hrem' : ¬ (data.drop pos).length < 8 := hrem
        rw [List.length_drop] at hrem
        have hsome := hscan pos (Nat.le_refl pos) (by omega)
        obtain ⟨sigs, hsigs⟩ := Option.isSome_iff_exists.1 hsome
        have hih := ih (pos + 1) (c + 1) (by omega)
          (fun p hp hp8 => hscan p (by omega) hp8)
        have hcount : data.length - 7 - pos = (data.length - 7 - (pos + 1)) + 1 := by omega
        have hprio : prioAt ox env allowed data pos =
            (if sigs.any (fun s => goStartsWith s.extension "doc" ||
              goStartsWith s.extension "xls" || goStartsWith s.extension "ppt")
            then 1 else 0) := by
          rw [prioAt, hsigs]
        rw [scheduleLoop, dif_pos hpos, if_neg hrem', hsigs]
        rw [hcount, List.range'_succ]
        have htail :
            (List.range' (pos + 1) (data.length - 7 - (pos + 1))).map
              (fun p => chunkAt ox env allowed data p (c + 1 + (p - (pos + 1)))) =
            (List.range' (pos + 1) (data.length - 7 - (pos + 1))).map
              (fun p => chunkAt ox env allowed data p (c + (p - pos))) := by
          apply List.map_congr_left
          intro p hp
          obtain ⟨i, hi, hpi⟩ := List.mem_range'.1 hp
          have harith : c + 1 + (p - (pos + 1)) = c + (p - pos) := by omega
          rw [harith]
        split
        · rename_i heq
          exact Option.noConfusion heq
        · rename_i foundSigs heq
          injection heq with heq2
          subst heq2
          split
          · rename_i hoff
            rw [scheduleLoop_dispatch_office, hih, Option.map_some']
            rw [List.map_cons]
            have hhead : (⟨data.drop pos, pos, c, 1⟩ : FileChunk) =
                chunkAt ox env allowed data pos (c + (pos - pos)) := by
              simp [chunkAt, hprio, hoff]
            rw [hhead, htail]
          · rename_i hreg
            rw [scheduleLoop_dispatch_regular, hih, Option.map_some']
            rw [List.map_cons]
            have hhead : (⟨data.drop pos, pos, c, 0⟩ : FileChunk) =
                chunkAt ox env allowed data pos (c + (pos - pos)) := by
              simp [chunkAt, hprio, hreg]
            rw [hhead, htail]
    · rw [scheduleLoop, dif_neg hpos]
      have h0 : data.length - 7 - pos = 0 := by omega
      rw [h0]
      rfl



/-- The dispatched chunks for a whole run: one chunk per position `p` with
`p + 8 ≤ data.length`, counter `p + 1`, regardless of the scanner's
verdict at `p`. -/
theorem processSchedule_eval (ox : OxSem) (env : Env) (data : List Nat)
    (allowed : List String)
    (hscan : ∀ p, p + 8 ≤ data.length →
      (findFileSignatures ox env (data.drop p) allowed).isSome) :
    processSchedule ox env data allowed =
      some ((List.range (data.length - 7)).map
        (fun p => chunkAt ox env allowed data p (p + 1))) := by
  rw [processSchedule]
  rw [scheduleLoop_spec ox env allowed data data.length 0 1 (by omega)
    (fun p _ hp8 => hscan p hp8)]
  rw [List.range_eq_range']
  have h0 : data.length - 7 - 0 = data.length - 7 := by omega
  rw [h0]
  congr 1
  apply List.map_congr_left
  intro p _
  have h1 : 1 + (p - 0) = p + 1 := by omega
  rw [h1]

theorem runChunks_map (ox : OxSem) (env : Env) (allowed : List String)
    (g : FileChunk → ExtractRes) :
    ∀ chunks : List FileChunk,
      (∀ c ∈ chunks, extractFile ox env c.data c.counter c.start allowed = some (g c)) →
      runChunks ox env allowed chunks = some (chunks.map (fun c => (c, g c))) := by
  intro chunks
  induction chunks with
  | nil => intro _; rw [runChunks]; rfl
  | cons c rest ih =>
    intro h
    rw [runChunks]
    rw [h c (List.mem_cons_self c rest)]
    rw [ih (fun c' hc' => h c' (List.mem_cons_of_mem c hc'))]
    rfl

theorem runChunks_fst (ox : OxSem) (env : Env) (allowed : List String) :
    ∀ (chunks : List FileChunk) (prs : List (FileChunk × ExtractRes)),
      runChunks ox env allowed chunks = some prs → prs.map Prod.fst = chunks := by
  intro chunks
  induction chunks with
  | nil =>
    intro prs h
    rw [runChunks] at h
    injection h with h
    rw [← h]
    rfl
  | cons c rest ih =>
    intro prs h
    rw [runChunks] at h
    cases hext : extractFile ox env c.data c.counter c.start allowed with
    | none => rw [hext] at h; exact Option.noConfusion h
    | some r =>
      rw [hext] at h
      cases hrc : runChunks ox env allowed rest with
      | none => rw [hrc] at h; exact Option.noConfusion h
      | some rs =>
        rw [hrc] at h
        simp only [Option.bind_eq_bind, Option.some_bind, Option.pure_def,
          Option.some.injEq] at h
        rw [← h]
        simp only [List.map_cons]
        rw [ih rs hrc]

/-- The full pipeline evaluated: schedule all positions, run each chunk. -/
theorem writtenSeqs_eval (ox : OxSem) (env : Env) (data : List Nat)
    (allowed : List String) (g : Nat → ExtractRes)
    (hscan : ∀ p, p + 8 ≤ data.length →
      (findFileSignatures ox env (data.drop p) allowed).isSome)
    (hg : ∀ p, p + 8 ≤ data.length →
      extractFile ox env (data.drop p) (p + 1) p allowed = some (g p)) :
    writtenSeqs ox env data allowed =
      some ((List.range (data.length - 7)).filterMap
        (fun p => match g p with
          | .ok _ => some (p + 1)
          | .err _ => none)) := by
  rw [writtenSeqs]
  rw [processSchedule_eval ox env data allowed hscan]
  simp only [Option.bind_eq_bind, Option.some_bind]
  rw [runChunks_map ox env allowed (fun c => g c.start) _ ?hall]
  case hall =>
    intro c hc
    simp only [List.mem_map, List.mem_range] at hc
    obtain ⟨p, hp, rfl⟩ := hc
    exact hg p (by omega)
  simp only [Option.some_bind, Option.pure_def, Option.some.injEq, List.filterMap_map]
  congr 1

theorem scheduleLoop_counters (ox : OxSem) (env : Env) (allowed : List String)
    (data : List Nat) :
    ∀ (k pos c : Nat) (l : List FileChunk), data.length - pos ≤ k →
      scheduleLoop ox env allowed data pos c [] [] = some l →
      List.Pairwise (· < ·) (l.map (·.counter)) ∧ ∀ x ∈ l, c ≤ x.counter := by
  intro k
  induction k with
  | zero =>
    intro pos c l hk h
    rw [scheduleLoop, dif_neg (by omega)] at h
    injection h with h
    rw [← h]
    exact ⟨List.Pairwise.nil, by simp⟩
  | succ k ih =>
    intro pos c l hk h
    by_cases hpos : pos < data.length
    · rw [scheduleLoop, dif_pos hpos] at h
      by_cases hrem : (data.drop pos).length < 8
      · rw [if_pos hrem] at h
        injection h with h
        rw [← h]
        exact ⟨List.Pairwise.nil, by simp⟩
      · rw [if_neg hrem] at h
        rw [List.length_drop] at hrem
        cases hsigs : findFileSignatures ox env (data.drop pos) allowed with
        | none => rw [hsigs] at h; exact Option.noConfusion h
        | some sigs =>
          rw [hsigs] at h
          have key : ∀ (chunk : FileChunk), chunk.counter = c →
              (scheduleLoop ox env allowed data (pos + 1) (c + 1) [] []).map
                (chunk :: ·) = some l →
              List.Pairwise (· < ·) (l.map (·.counter)) ∧ ∀ x ∈ l, c ≤ x.counter := by
            intro chunk hcc hmap
            cases hinner : scheduleLoop ox env allowed data (pos + 1) (c + 1) [] [] with
            | none => rw [hinner] at hmap; exact Option.noConfusion hmap
            | some l' =>
              rw [hinner] at hmap
              injection hmap with hmap
              obtain ⟨hpw, hge⟩ := ih (pos + 1) (c + 1) l' (by omega) hinner
              rw [← hmap]
              constructor
              · rw [List.map_cons, hcc]
                refine List.Pairwise.cons ?_ hpw
                intro y hy
                simp only [List.mem_map] at hy
                obtain ⟨x, hx, rfl⟩ := hy
                have := hge x hx
                omega
              · intro x hx
                rcases List.mem_cons.1 hx with rfl | hx
                · omega
                · have := hge x hx
                  omega
          split at h
          · exact Option.noConfusion h
          · rename_i foundSigs heq
            split at h
            · rw [scheduleLoop_dispatch_office] at h
              exact key _ rfl h
            · rw [scheduleLoop_dispatch_regular] at h
              exact key _ rfl h
    · rw [scheduleLoop, dif_neg hpos] at h
      injection h with h
      rw [← h]
      exact ⟨List.Pairwise.nil, by simp⟩

theorem writtenSeqs_sublist_pick :
    ∀ prs : List (FileChunk × ExtractRes),
      (prs.filterMap fun pr =>
        match pr.2 with
        | .ok _ => some pr.1.counter
        | .err _ => none).Sublist (prs.map (fun pr => pr.1.counter)) := by
  intro prs
  induction prs with
  | nil => simp
  | cons pr rest ih =>
    rw [List.filterMap_cons, List.map_cons]
    cases pr.2 with
    | ok r => simp only; exact List.Sublist.cons₂ _ ih
    | err e => simp only; exact List.Sublist.cons _ ih

/-- Written sequence numbers are strictly increasing (in dispatch order):
every dispatched candidate consumes a counter value, successful ones write
files named by it. -/
theorem writtenSeqs_pairwise (ox : OxSem) (env : Env) (data : List Nat)
    (allowed : List String) (ws : List Nat)
    (h : writtenSeqs ox env data allowed = some ws) :
    List.Pairwise (· < ·) ws := by
  rw [writtenSeqs] at h
  cases hsch : processSchedule ox env data allowed with
  | none => rw [hsch] at h; exact Option.noConfusion h
  | some chunks =>
    rw [hsch] at h
    simp only [Option.bind_eq_bind, Option.some_bind] at h
    cases hrc : runChunks ox env allowed chunks with
    | none => rw [hrc] at h; exact Option.noConfusion h
    | some prs =>
      rw [hrc] at h
      simp only [Option.some_bind, Option.pure_def, Option.some.injEq] at h
      have hcnt := (scheduleLoop_counters ox env allowed data data.length 0 1 chunks
        (by omega) hsch).1
      have hfst := runChunks_fst ox env allowed chunks prs hrc
      have hsub := writtenSeqs_sublist_pick prs
      have hmapmap : prs.map (fun pr => pr.1.counter) = chunks.map (·.counter) := by
        rw [← hfst, List.map_map]
        rfl
      rw [hmapmap] at hsub
      rw [← h]
      exact List.Pairwise.sublist hsub hcnt



/-! ### The input for the sequence-number counterexample -/

theorem c5Input_eq :
    c5Input = [0x00, 0x7B, 0x5C, 0x72, 0x74, 0x66, 0x31] ++ List.replicate 2048 0 := rfl

theorem c5Input_length : c5Input.length = 2055 := by
  rw [c5Input_eq, List.length_append, List.length_replicate]
  rfl

theorem c5Input_drop_ge (p : Nat) (h7 : 7 ≤ p) (h54 : p ≤ 2054) :
    c5Input.drop p = List.replicate (2055 - p) 0 := by
  rw [c5Input_eq, List.drop_append_eq_append_drop]
  rw [List.drop_eq_nil_of_le
    (by simp only [List.length_cons, List.length_nil]; omega)]
  rw [List.drop_replicate, List.nil_append]
  congr 1
  simp only [List.length_cons, List.length_nil]
  omega

theorem c5_findSigs (p : Nat) (hp : p + 8 ≤ 2055) :
    findFileSignatures oxExtractor env0 (c5Input.drop p) [] =
      some (if p = 1 then [rtfSig] else []) := by
  by_cases h1 : p = 1
  · subst h1
    have hd : c5Input.drop 1 = rtfFam 2048 := rfl
    rw [hd, if_pos rfl]
    exact findSigs_rtfFam oxExtractor env0 2048
  · rw [if_neg h1]
    by_cases h7 : 7 ≤ p
    · have hd := c5Input_drop_ge p h7 (by omega)
      obtain ⟨m, hm⟩ : ∃ m, 2055 - p = m + 1 := ⟨2054 - p, by omega⟩
      rw [hd, hm, List.replicate_succ]
      exact findFileSignatures_nil_of_head _ _ _ _ (by decide)
    · interval_cases p
      · exact findFileSignatures_nil_of_head _ _ _ _ (by decide)
      · exact absurd rfl h1
      · have hd : c5Input.drop 2 = 0x5C :: ([0x72, 0x74, 0x66, 0x31] ++
          List.replicate 2048 0) := rfl
        rw [hd]
        exact findFileSignatures_nil_of_head _ _ _ _ (by decide)
      · have hd : c5Input.drop 3 = 0x72 :: ([0x74, 0x66, 0x31] ++
          List.replicate 2048 0) := rfl
        rw [hd]
        exact findFileSignatures_nil_of_head _ _ _ _ (by decide)
      · have hd : c5Input.drop 4 = 0x74 :: ([0x66, 0x31] ++
          List.replicate 2048 0) := rfl
        rw [hd]
        exact findFileSignatures_nil_of_head _ _ _ _ (by decide)
      · have hd : c5Input.drop 5 = 0x66 :: ([0x31] ++ List.replicate 2048 0) := rfl
        rw [hd]
        exact findFileSignatures_nil_of_head _ _ _ _ (by decide)
      · have hd : c5Input.drop 6 = 0x31 :: List.replicate 2048 0 := rfl
        rw [hd]
        exact findFileSignatures_nil_of_head _ _ _ _ (by decide)

theorem c5_extract (p : Nat) (hp : p + 8 ≤ 2055) :
    extractFile oxExtractor env0 (c5Input.drop p) (p + 1) p [] =
      some (if p = 1 then
        .ok ⟨2054, 2055, 2, "rtf", "Rich Text Format", none, rtfFam 2048⟩
      else .err .noSignatures) := by
  by_cases h1 : p = 1
  · subst h1
    have hd : c5Input.drop 1 = rtfFam 2048 := rfl
    rw [hd, if_pos rfl]
    rw [extractFile_rtfFam oxExtractor env0 2048 2 1]
    norm_num [minFileSize]
  · rw [if_neg h1]
    refine extractFile_of_no_sigs _ _ _ _ _ _ ?_
    rw [c5_findSigs p hp, if_neg h1]

theorem c5_writtenSeqs :
    writtenSeqs oxExtractor env0 c5Input [] = some [2] := by
  rw [writtenSeqs_eval oxExtractor env0 c5Input []
    (fun p => if p = 1 then
        .ok ⟨2054, 2055, 2, "rtf", "Rich Text Format", none, rtfFam 2048⟩
      else .err .noSignatures)
    (fun p hp => by rw [c5Input_length] at hp; rw [c5_findSigs p hp]; rfl)
    (fun p hp => by rw [c5Input_length] at hp; exact c5_extract p hp)]
  rw [c5Input_length]
  have hsplit : List.range (2055 - 7) = 0 :: 1 :: List.range' 2 2046 := by
    rw [List.range_eq_range']
    rfl
  rw [hsplit]
  have htail : (List.range' 2 2046).filterMap
      (fun p => match (if p = 1 then
          ExtractRes.ok ⟨2054, 2055, 2, "rtf", "Rich Text Format", none, rtfFam 2048⟩
        else ExtractRes.err .noSignatures) with
        | .ok _ => some (p + 1)
        | .err _ => none) = [] := by
    rw [List.filterMap_eq_nil]
    intro p hp
    obtain ⟨i, hi, rfl⟩ := List.mem_range'.1 hp
    rw [if_neg (by omega)]
  rw [List.filterMap_cons_none (by rfl), List.filterMap_cons_some (by rfl)]
  rw [show (1 + 1 : Nat) = 2 from rfl]
  exact congrArg some (congrArg (2 :: ·) htail)



theorem extractFile_ok_inv (ox : OxSem) (env : Env) (data : List Nat)
    (counter startPos : Nat) (allowed : List String) (r : ExtractOk)
    (h : extractFile ox env data counter startPos allowed = some (.ok r)) :
    ∃ sig rest, findFileSignatures ox env data allowed = some (sig :: rest) ∧
      minFileSize ≤ resolveFileEnd data sig ∧
      r = ⟨resolveFileEnd data sig, startPos + resolveFileEnd data sig, counter,
        sig.extension, fileTypeFor sig.extension, computeOfficeInfo data sig.extension,
        data.take (resolveFileEnd data sig)⟩ := by
  cases hsigs : findFileSignatures ox env data allowed with
  | none =>
    rw [extractFile, hsigs] at h
    exact Option.noConfusion h
  | some sigs =>
    cases sigs with
    | nil =>
      rw [extractFile_of_no_sigs ox env data counter startPos allowed hsigs] at h
      injection h with h
      exact ExtractRes.noConfusion h
    | cons sig rest =>
      rw [extractFile_of_sigs ox env data counter startPos allowed sig rest hsigs] at h
      injection h with h
      by_cases hsz : resolveFileEnd data sig < minFileSize
      · rw [if_pos hsz] at h
        exact ExtractRes.noConfusion h
      · rw [if_neg hsz] at h
        refine ⟨sig, rest, rfl, by omega, ?_⟩
        injection h with h
        exact h.symm

/-- `resolveFileEnd` never exceeds the region length. -/
theorem resolveFileEnd_le (data : List Nat) (sig : FileSignature) :
    resolveFileEnd data sig ≤ data.length := by
  rw [resolveFileEnd]
  exact Nat.min_le_right _ _

theorem formatRefine_pdf (data : List Nat) (fe e : Nat)
    (heof : bLastIndex data (strBytes "%%EOF") = some e) :
    formatRefine data "pdf" fe =
      if e + 5 < data.length then
        if data.getD (e + 5) 0 = 13 || data.getD (e + 5) 0 = 10 then e + 5 + 1
        else if e + 5 + 1 < data.length && data.getD (e + 5) 0 = 13 &&
            data.getD (e + 5 + 1) 0 = 10 then e + 5 + 2
        else e + 5
      else e + 5 := by
  rw [formatRefine, if_neg (by decide), if_pos (by decide), heof]

/-- After the last `%%EOF` the refinement consumes exactly one byte and only
when it is CR or LF; the CR LF branch in the source is dead code. The
hypothesis `e + 6 < data.length` keeps the own-magic step and the final
clamp out of play. -/
theorem resolveFileEnd_pdf_trailer (data : List Nat) (sig : FileSignature)
    (e : Nat) (hext : sig.extension = "pdf")
    (heof : bLastIndex data (strBytes "%%EOF") = some e)
    (hlen : e + 6 < data.length) :
    resolveFileEnd data sig =
      if data.getD (e + 5) 0 = 13 ∨ data.getD (e + 5) 0 = 10 then e + 6 else e + 5 := by
  have href : formatRefine data sig.extension
      (foreignClip data (fileSignatures.drop 1) data.length) =
      if data.getD (e + 5) 0 = 13 ∨ data.getD (e + 5) 0 = 10 then e + 6 else e + 5 := by
    rw [hext, formatRefine_pdf data _ e heof]
    rw [if_pos (by omega : e + 5 < data.length)]
    by_cases hcr : data.getD (e + 5) 0 = 13
    · rw [if_pos (by rw [hcr]; decide), if_pos (Or.inl hcr)]
    · by_cases hlf : data.getD (e + 5) 0 = 10
      · rw [if_pos (by rw [hlf]; decide), if_pos (Or.inr hlf)]
      · rw [if_neg (by rw [decide_eq_false hcr, decide_eq_false hlf]; decide)]
        rw [if_neg (by rw [decide_eq_false hcr]; simp)]
        rw [if_neg (fun h => h.elim hcr hlf)]
  rw [resolveFileEnd, href]
  have hne2 : (if data.getD (e + 5) 0 = 13 ∨ data.getD (e + 5) 0 = 10 then e + 6
      else e + 5) ≠ data.length := by
    split <;> omega
  rw [if_neg (by rw [decide_eq_false hne2]; simp)]
  exact Nat.min_eq_left (by split <;> omega)

/-! ### Uncovered-area lemmas -/

theorem uncoveredPass_cons (v : Bool) (rest : List Bool) (i : Nat) (inUnc : Bool)
    (start : Nat) :
    uncoveredPass (v :: rest) i inUnc start =
      if !v && !inUnc then uncoveredPass rest (i + 1) true i
      else if v && inUnc then (start, i - 1) :: uncoveredPass rest (i + 1) false start
      else uncoveredPass rest (i + 1) inUnc start := by
  rw [uncoveredPass]

theorem uncoveredPass_false_run (rest : List Bool) :
    ∀ (m i s : Nat),
      uncoveredPass (List.replicate m false ++ rest) i true s =
        uncoveredPass rest (i + m) true s := by
  intro m
  induction m with
  | zero => intro i s; simp
  | succ m ih =>
    intro i s
    rw [List.replicate_succ, List.cons_append, uncoveredPass_cons]
    rw [if_neg (by simp), if_neg (by simp)]
    rw [ih (i + 1) s]
    congr 1
    omega

theorem uncoveredPass_true_run (rest : List Bool) :
    ∀ (m i s : Nat),
      uncoveredPass (List.replicate m true ++ rest) i false s =
        uncoveredPass rest (i + m) false s := by
  intro m
  induction m with
  | zero => intro i s; simp
  | succ m ih =>
    intro i s
    rw [List.replicate_succ, List.cons_append, uncoveredPass_cons]
    rw [if_neg (by simp), if_neg (by simp)]
    rw [ih (i + 1) s]
    congr 1
    omega

/-- The first pass on `F^a T^g F^b` (all runs non-empty) yields the two
maximal uncovered runs as inclusive intervals. -/
theorem uncoveredPass_two_runs (a g b : Nat) (ha : 0 < a) (hg : 0 < g) (hb : 0 < b) :
    uncoveredPass (List.replicate a false ++ List.replicate g true ++
        List.replicate b false) 0 false 0 =
      [(0, a - 1), (a + g, a + g + b - 1)] := by
  obtain ⟨a', rfl⟩ : ∃ a', a = a' + 1 := ⟨a - 1, by omega⟩
  obtain ⟨g', rfl⟩ : ∃ g', g = g' + 1 := ⟨g - 1, by omega⟩
  obtain ⟨b', rfl⟩ : ∃ b', b = b' + 1 := ⟨b - 1, by omega⟩
  rw [List.replicate_succ, List.cons_append, List.cons_append, uncoveredPass_cons]
  rw [if_pos (by simp)]
  rw [List.append_assoc]
  rw [uncoveredPass_false_run _ a' 1 0]
  rw [show (List.replicate (g' + 1) true ++ List.replicate (b' + 1) false : List Bool) =
    true :: (List.replicate g' true ++ List.replicate (b' + 1) false) by
      rw [List.replicate_succ, List.cons_append]]
  rw [uncoveredPass_cons]
  rw [if_neg (by simp), if_pos (by simp)]
  rw [uncoveredPass_true_run _ g' (1 + a' + 1) 0]
  rw [show (List.replicate (b' + 1) false : List Bool) =
    false :: List.replicate b' false by rw [List.replicate_succ]]
  rw [uncoveredPass_cons]
  rw [if_pos (by simp)]
  rw [show (List.replicate b' false : List Bool) =
    List.replicate b' false ++ [] by simp]
  rw [uncoveredPass_false_run [] b' _ _]
  rw [uncoveredPass, if_pos rfl]
  have h1 : 1 + a' - 1 = a' + 1 - 1 := by omega
  have h2 : 1 + a' + 1 + g' = a' + 1 + (g' + 1) := by omega
  have h3 : a' + 1 + (g' + 1) + 1 + b' - 1 = a' + 1 + (g' + 1) + (b' + 1) - 1 := by omega
  rw [h1, h2, h3]

theorem mergeClose_pair (x1 y1 x2 y2 : Nat) :
    mergeClose [(x1, y1), (x2, y2)] =
      if x2 - y1 < 1024 then [(x1, y2)] else [(x1, y1), (x2, y2)] := by
  have h0 : mergeClose [(x1, y1), (x2, y2)] = mergeLoop (x1, y1) [(x2, y2)] := rfl
  rw [h0, mergeLoop]
  split
  · rw [mergeLoop]
  · rw [mergeLoop]

/-- The aggregator's uncovered report on a bitmap made of one covered run
of length `g` flanked by uncovered runs of lengths `a` and `b`: the two
maximal runs appear as inclusive intervals, merged exactly when
`(a + g) - (a - 1) = g + 1 < 1024`, that is when the covered run is at
most 1022 bytes long. -/
theorem analyzeUncoveredAreas_two_runs (a g b : Nat)
    (ha : 0 < a) (hg : 0 < g) (hb : 0 < b) :
    analyzeUncoveredAreas (List.replicate a false ++ List.replicate g true ++
        List.replicate b false) =
      if g + 1 < 1024 then [(0, a + g + b - 1)]
      else [(0, a - 1), (a + g, a + g + b - 1)] := by
  rw [analyzeUncoveredAreas, uncoveredPass_two_runs a g b ha hg hb, mergeClose_pair]
  have harith : a + g - (a - 1) = g + 1 := by omega
  rw [harith]

/-! ### The wired-in OOXML validator rejects everything -/

theorem validateOfficeOpenXML_rejects (expectedContent : String)
    (expectedType : OfficeFileType) (env : Env) (data : List Nat) :
    validateOfficeOpenXML expectedContent expectedType env data =
      (validateZipFile data).map (fun _ => false) := by
  rw [validateOfficeOpenXML]
  cases validateZipFile data with
  | none => rfl
  | some zipOk =>
    simp only [Option.map_some']
    cases zipOk with
    | false => rfl
    | true =>
      simp only [Bool.not_true]
      cases env.zipParse data with
      | none => rfl
      | some entries => rfl

/-! ### Allow-set equivalence -/

theorem findSigsAux_allowed_full (ox : OxSem) (env : Env) (data : List Nat) :
    ∀ sigs : List FileSignature,
      (∀ s ∈ sigs, getSupportedExtensions.contains s.extension = true) →
      findSigsAux ox env data [] sigs = findSigsAux ox env data getSupportedExtensions sigs := by
  intro sigs
  induction sigs with
  | nil => intro _; rw [findSigsAux, findSigsAux]
  | cons s rest ih =>
    intro h
    have hs := h s (List.mem_cons_self s rest)
    have hrest := fun s' hs' => h s' (List.mem_cons_of_mem s hs')
    rw [findSigsAux, findSigsAux]
    have hc1 : ¬ ((!(([] : List String).isEmpty) &&
        !(([] : List String).contains s.extension)) = true) := by simp
    have hc2 : ¬ ((!getSupportedExtensions.isEmpty &&
        !getSupportedExtensions.contains s.extension) = true) := by
      rw [hs]; simp
    rw [if_neg hc1, if_neg hc2, ih hrest]


theorem findFileSignatures_allowed_full (ox : OxSem) (env : Env) (data : List Nat) :
    findFileSignatures ox env data [] =
      findFileSignatures ox env data getSupportedExtensions := by
  rw [findFileSignatures, findFileSignatures]
  exact findSigsAux_allowed_full ox env data fileSignatures (by decide)

theorem extractFile_allowed_full (ox : OxSem) (env : Env) (data : List Nat)
    (counter startPos : Nat) :
    extractFile ox env data counter startPos [] =
      extractFile ox env data counter startPos getSupportedExtensions := by
  rw [extractFile, extractFile, findFileSignatures_allowed_full ox env data]

/-! ## The claims -/

/-- Claim C1, amended. The original claim — a candidate is enqueued at `p`
only when the scanner returns a non-empty list for `input[p..]` — is false:
`ProcessFile` enqueues a `FileChunk` at every position with at least 8
bytes remaining, and the scanner's verdict only selects the queue
(priority). Amended: the scheduler dispatches exactly one chunk per
position `p` with `p + 8 ≤ input.length`, carrying counter `p + 1`,
regardless of the scanner's answer at `p`. -/
theorem C1_scheduler_dispatches_every_position (ox : OxSem) (env : Env)
    (data : List Nat) (allowed : List String)
    (hscan : ∀ p, p + 8 ≤ data.length →
      (findFileSignatures ox env (data.drop p) allowed).isSome) :
    processSchedule ox env data allowed =
      some ((List.range (data.length - 7)).map
        (fun p => chunkAt ox env allowed data p (p + 1))) :=
  processSchedule_eval ox env data allowed hscan

/-- Claim C1, counterexample. On the 8-byte all-zero input the scanner at
position 0 returns the empty list, yet the scheduler still dispatches a
chunk at position 0 (with priority 0) to the worker pool. -/
theorem C1_counterexample :
    findFileSignatures oxExtractor env0 (List.replicate 8 0) [] = some [] ∧
      processSchedule oxExtractor env0 (List.replicate 8 0) [] =
        some [⟨List.replicate 8 0, 0, 1, 0⟩] := by
  have hscan : ∀ p, p + 8 ≤ (List.replicate 8 0 : List Nat).length →
      (findFileSignatures oxExtractor env0 ((List.replicate 8 0 : List Nat).drop p)
        []).isSome := by
    intro p hp
    simp only [List.length_replicate] at hp
    have hp0 : p = 0 := by omega
    subst hp0
    rfl
  refine ⟨rfl, ?_⟩
  rw [processSchedule_eval oxExtractor env0 (List.replicate 8 0) [] hscan]
  rfl

/-- Claim C1, witness: the amended theorem applied to the 9-byte all-zero
input, where the scan hypothesis holds at both scanned positions. -/
theorem C1_witness :
    processSchedule oxExtractor env0 (List.replicate 9 0) [] =
      some ((List.range 2).map
        (fun p => chunkAt oxExtractor env0 [] (List.replicate 9 0) p (p + 1))) := by
  have hscan : ∀ p, p + 8 ≤ (List.replicate 9 0 : List Nat).length →
      (findFileSignatures oxExtractor env0 ((List.replicate 9 0 : List Nat).drop p)
        []).isSome := by
    intro p hp
    simp only [List.length_replicate] at hp
    have hp1 : p = 0 ∨ p = 1 := by omega
    rcases hp1 with rfl | rfl <;> rfl
  exact C1_scheduler_dispatches_every_position oxExtractor env0
    (List.replicate 9 0) [] hscan

/-- Claim C2. The OOXML validator wired into the extractor can never accept:
its XML-inspection stage never sets the content-types flag, so it answers
`false` whenever the ZIP check passes (and propagates the ZIP check's panic
otherwise). In particular no well-formed DOCX region whatsoever is accepted
by the validator for ("word/", Word), contradicting the claimed
acceptance condition. -/
theorem C2_ooxml_validator_never_accepts (expectedContent : String)
    (expectedType : OfficeFileType) (env : Env) (data : List Nat) :
    validateOfficeOpenXML expectedContent expectedType env data ≠ some true := by
  rw [validateOfficeOpenXML_rejects]
  cases validateZipFile data <;> simp

/-- Claim C3. For every successful extraction from the tail region
`input[startPos..]`, the bytes handed to the output write are exactly
`input[startPos..endPos)` and `endPos = startPos + size`. -/
theorem C3_output_bytes_exact (ox : OxSem) (env : Env) (input : List Nat)
    (counter startPos : Nat) (allowed : List String) (r : ExtractOk)
    (h : extractFile ox env (input.drop startPos) counter startPos allowed =
      some (.ok r)) :
    r.fileData = byteSlice input startPos r.endPos ∧
      r.endPos = startPos + r.size := by
  obtain ⟨sig, rest, hsigs, hsz, rfl⟩ :=
    extractFile_ok_inv ox env (input.drop startPos) counter startPos allowed r h
  constructor
  · show (input.drop startPos).take (resolveFileEnd (input.drop startPos) sig) =
      byteSlice input startPos (startPos + resolveFileEnd (input.drop startPos) sig)
    rw [byteSlice]
    congr 1
    omega
  · rfl

/-- Claim C3, witness: the theorem applied to the 2506-byte RTF region at
start position 0. -/
theorem C3_witness :
    extractFile oxExtractor env0 ((rtfFam 2500).drop 0) 1 0 [] =
        some (.ok ⟨2506, 2506, 1, "rtf", "Rich Text Format", none, rtfFam 2500⟩) ∧
      (rtfFam 2500 = byteSlice (rtfFam 2500) 0 2506 ∧ (2506 : Nat) = 0 + 2506) := by
  have hEq : extractFile oxExtractor env0 ((rtfFam 2500).drop 0) 1 0 [] =
      some (.ok ⟨2506, 2506, 1, "rtf", "Rich Text Format", none, rtfFam 2500⟩) := by
    rw [List.drop_zero, extractFile_rtfFam oxExtractor env0 2500 1 0,
      if_neg (by decide)]
  exact ⟨hEq, C3_output_bytes_exact oxExtractor env0 (rtfFam 2500) 1 0 [] _ hEq⟩

/-- Claim C4. Successful extractions from the tail region at `startPos`
satisfy `startPos ≤ endPos ≤ input.length` and `endPos - startPos ≥ 2048`;
and a candidate whose resolved end is below 2048 is rejected with the
"too small" error. -/
theorem C4_size_bounds (ox : OxSem) (env : Env) (input : List Nat)
    (counter startPos : Nat) (allowed : List String)
    (hstart : startPos ≤ input.length) :
    (∀ r : ExtractOk,
        extractFile ox env (input.drop startPos) counter startPos allowed =
          some (.ok r) →
        startPos ≤ r.endPos ∧ r.endPos ≤ input.length ∧
          minFileSize ≤ r.endPos - startPos) ∧
    (∀ sig rest,
        findFileSignatures ox env (input.drop startPos) allowed =
          some (sig :: rest) →
        resolveFileEnd (input.drop startPos) sig < minFileSize →
        extractFile ox env (input.drop startPos) counter startPos allowed =
          some (.err .tooSmall)) := by
  constructor
  · intro r h
    obtain ⟨sig, rest, hsigs, hsz, rfl⟩ :=
      extractFile_ok_inv ox env (input.drop startPos) counter startPos allowed r h
    have hle := resolveFileEnd_le (input.drop startPos) sig
    rw [List.length_drop] at hle
    refine ⟨?_, ?_, ?_⟩
    · show startPos ≤ startPos + resolveFileEnd (input.drop startPos) sig
      omega
    · show startPos + resolveFileEnd (input.drop startPos) sig ≤ input.length
      omega
    · show minFileSize ≤ startPos + resolveFileEnd (input.drop startPos) sig - startPos
      omega
  · intro sig rest hsigs hsmall
    rw [extractFile_of_sigs ox env (input.drop startPos) counter startPos allowed
      sig rest hsigs]
    rw [if_pos hsmall]

/-- Claim C4, witness: the theorem applied at the 2506-byte RTF region,
start position 0. -/
theorem C4_witness :
    (0 ≤ (rtfFam 2500).length) ∧
      ((∀ r : ExtractOk,
          extractFile oxExtractor env0 ((rtfFam 2500).drop 0) 1 0 [] =
            some (.ok r) →
          0 ≤ r.endPos ∧ r.endPos ≤ (rtfFam 2500).length ∧
            minFileSize ≤ r.endPos - 0) ∧
        (∀ sig rest,
          findFileSignatures oxExtractor env0 ((rtfFam 2500).drop 0) [] =
            some (sig :: rest) →
          resolveFileEnd ((rtfFam 2500).drop 0) sig < minFileSize →
          extractFile oxExtractor env0 ((rtfFam 2500).drop 0) 1 0 [] =
            some (.err .tooSmall))) :=
  ⟨Nat.zero_le _, C4_size_bounds oxExtractor env0 (rtfFam 2500) 1 0 [] (Nat.zero_le _)⟩

/-- Claim C5, amended. The original claim — written sequence numbers form a
gapless prefix 1,2,3,… — is false: a counter value is consumed by every
dispatched candidate, successful or not, so gaps arise. Amended: the
sequence numbers of the written files are strictly increasing in dispatch
order (each successful candidate writes the counter it was dispatched
with, and counters strictly increase along the dispatch order). -/
theorem C5_seqs_strictly_increasing (ox : OxSem) (env : Env) (data : List Nat)
    (allowed : List String) (ws : List Nat)
    (h : writtenSeqs ox env data allowed = some ws) :
    List.Pairwise (fun a b => a < b) ws :=
  writtenSeqs_pairwise ox env data allowed ws h

/-- Claim C5, counterexample: on `c5Input` (a zero byte followed by a
2054-byte RTF region) the only file written carries sequence number 2 —
the candidate at position 0 consumed counter 1 and failed — so the output
set is not a prefix of 1,2,3,… -/
theorem C5_counterexample :
    writtenSeqs oxExtractor env0 c5Input [] = some [2] ∧
      (1 : Nat) ∉ [2] ∧ (2 : Nat) ∈ [2] :=
  ⟨c5_writtenSeqs, by decide, by decide⟩

/-- Claim C5, witness: the amended theorem applied to `c5Input`, whose
written sequence numbers are `[2]`. -/
theorem C5_witness :
    writtenSeqs oxExtractor env0 c5Input [] = some [2] ∧
      List.Pairwise (fun a b => a < b) [2] :=
  ⟨c5_writtenSeqs,
    C5_seqs_strictly_increasing oxExtractor env0 c5Input [] [2] c5_writtenSeqs⟩

/-- Claim C6, amended. The original claim — after `e + 5` the resolver
consumes a single LF, a single CR, or a full CRLF pair — is false: the
branch that would consume the second byte of a CRLF pair is dead code, so
exactly one trailing byte is consumed when it is CR or LF, never two.
Amended: with `e` the last index of "%%EOF" and `e + 6 < input.length`,
the resolved end is `e + 6` when the byte at `e + 5` is CR or LF and
`e + 5` otherwise. -/
theorem C6_pdf_trailer (data : List Nat) (sig : FileSignature) (e : Nat)
    (hext : sig.extension = "pdf")
    (heof : bLastIndex data (strBytes "%%EOF") = some e)
    (hlen : e + 6 < data.length) :
    resolveFileEnd data sig =
      if data.getD (e + 5) 0 = 13 ∨ data.getD (e + 5) 0 = 10 then e + 6
      else e + 5 :=
  resolveFileEnd_pdf_trailer data sig e hext heof hlen

/-- Claim C6, counterexample: a PDF region whose "%%EOF" is followed by CR
LF ends at byte 15 of 16, keeping the CR but dropping the LF, where the
claim demands the end include both bytes (16). -/
theorem C6_counterexample :
    pdfCrlf.getD 14 0 = 13 ∧ pdfCrlf.getD 15 0 = 10 ∧ pdfCrlf.length = 16 ∧
      resolveFileEnd pdfCrlf pdfSig = 15 := by
  refine ⟨by decide, by decide, by decide, by decide⟩

/-- Claim C6, witness: the amended theorem applied to the CRLF-terminated
PDF region, where the last "%%EOF" sits at index 9. -/
theorem C6_witness :
    bLastIndex pdfCrlf (strBytes "%%EOF") = some 9 ∧ 9 + 6 < pdfCrlf.length ∧
      resolveFileEnd pdfCrlf pdfSig =
        if pdfCrlf.getD 14 0 = 13 ∨ pdfCrlf.getD 14 0 = 10 then 15 else 14 :=
  ⟨by decide, by decide, C6_pdf_trailer pdfCrlf pdfSig 9 rfl (by decide) (by decide)⟩

/-- Claim C7, amended. The original claim — intervals are merged exactly
when the covered gap is strictly below 1024, so a 1023-byte covered gap is
merged — is false: the code compares `current.Start - prev.End`, which is
the covered gap plus one, so merging happens exactly when the covered gap
is at most 1022 bytes. Amended: on a bitmap `F^a T^g F^b` the report is
the single interval `(0, a+g+b-1)` when `g + 1 < 1024`, and the two
maximal runs `(0, a-1)`, `(a+g, a+g+b-1)` otherwise. -/
theorem C7_uncovered_merge (a g b : Nat) (ha : 0 < a) (hg : 0 < g) (hb : 0 < b) :
    analyzeUncoveredAreas (List.replicate a false ++ List.replicate g true ++
        List.replicate b false) =
      if g + 1 < 1024 then [(0, a + g + b - 1)]
      else [(0, a - 1), (a + g, a + g + b - 1)] :=
  analyzeUncoveredAreas_two_runs a g b ha hg hb

/-- Claim C7, counterexample: two single-byte uncovered runs separated by
exactly 1023 covered bytes are reported as two intervals, not merged into
one span as the claim demands. -/
theorem C7_counterexample :
    analyzeUncoveredAreas (List.replicate 1 false ++ List.replicate 1023 true ++
        List.replicate 1 false) = [(0, 0), (1024, 1024)] := by
  rw [analyzeUncoveredAreas_two_runs 1 1023 1 (by decide) (by decide) (by decide)]
  norm_num

/-- Claim C7, witness: the amended theorem applied to `F T F`, whose
single-byte covered gap is merged into one span. -/
theorem C7_witness :
    analyzeUncoveredAreas (List.replicate 1 false ++ List.replicate 1 true ++
        List.replicate 1 false) = [(0, 2)] := by
  have h := C7_uncovered_merge 1 1 1 (by decide) (by decide) (by decide)
  norm_num at h
  exact h

/-- Claim C8. The generic ZIP validator of the extraction path is not total:
on a region shorter than 4 bytes it panics (modelled `none`) instead of
returning `false`, while the monolith's variant of the same validator is
guarded and returns `false`; on a 4-byte `PK\x03\x04` region it returns
`true` as specified. -/
theorem C8_zip_validator_not_total :
    validateZipFile [0x50, 0x4B, 0x03] = none ∧
      validateZipFileMain [0x50, 0x4B, 0x03] = false ∧
      validateZipFile [0x50, 0x4B, 0x03, 0x04] = some true := by
  decide

/-- Claim C9. The scanner with an empty allow-set returns the same
descriptor list as with the allow-set holding every registered extension,
and consequently extraction is identical under the two configurations. -/
theorem C9_empty_allow_set_equals_full (ox : OxSem) (env : Env) (data : List Nat)
    (counter startPos : Nat) :
    findFileSignatures ox env data [] =
        findFileSignatures ox env data getSupportedExtensions ∧
      extractFile ox env data counter startPos [] =
        extractFile ox env data counter startPos getSupportedExtensions :=
  ⟨findFileSignatures_allowed_full ox env data,
    extractFile_allowed_full ox env data counter startPos⟩

/-- Claim C10. For every successful extraction committed as docx, xlsx or
pptx, the office info is non-null but entirely zero-valued (kind Unknown,
empty version, no encryption, no macro); and whenever the office info is
non-null and not the zero value, the committed extension is exactly doc,
xls or ppt. -/
theorem C10_office_info (ox : OxSem) (env : Env) (data : List Nat)
    (counter startPos : Nat) (allowed : List String) (r : ExtractOk)
    (h : extractFile ox env data counter startPos allowed = some (.ok r)) :
    ((r.ext = "docx" ∨ r.ext = "xlsx" ∨ r.ext = "pptx") →
      r.officeInfo = some ⟨.unknownOffice, "", false, false⟩) ∧
    (∀ info, r.officeInfo = some info →
      info ≠ ⟨.unknownOffice, "", false, false⟩ →
      r.ext = "doc" ∨ r.ext = "xls" ∨ r.ext = "ppt") := by
  obtain ⟨sig, rest, hsigs, hsz, rfl⟩ :=
    extractFile_ok_inv ox env data counter startPos allowed r h
  constructor
  · intro hext
    show computeOfficeInfo data sig.extension =
      some ⟨.unknownOffice, "", false, false⟩
    rcases hext with h1 | h1 | h1 <;>
      · replace h1 : sig.extension = _ := h1
        rw [h1, computeOfficeInfo, if_pos (by decide), if_neg (by decide)]
  · intro info hinfo hne
    show sig.extension = "doc" ∨ sig.extension = "xls" ∨ sig.extension = "ppt"
    replace hinfo : computeOfficeInfo data sig.extension = some info := hinfo
    rw [computeOfficeInfo] at hinfo
    by_cases houter : (goStartsWith sig.extension "doc" ||
        goStartsWith sig.extension "xls" || goStartsWith sig.extension "ppt") = true
    · rw [if_pos houter] at hinfo
      injection hinfo with hinfo
      by_cases hinner : (sig.extension = "doc" || sig.extension = "xls" ||
          sig.extension = "ppt") = true
      · simp only [Bool.or_eq_true, decide_eq_true_eq] at hinner
        tauto
      · rw [if_neg hinner] at hinfo
        exact absurd hinfo.symm hne
    · rw [if_neg houter] at hinfo
      exact Option.noConfusion hinfo

/-- Claim C10, witness: the theorem applied to a 2048-byte region accepted
as docx (under an OOXML oracle that accepts), whose office info is the
zero value. -/
theorem C10_witness :
    extractFile oxTrue env0 (pkFam 2044) 1 0 [] =
        some (.ok ⟨2048, 2048, 1, "docx", "Word Document (Open XML)",
          some ⟨.unknownOffice, "", false, false⟩, pkFam 2044⟩) ∧
      (⟨2048, 2048, 1, "docx", "Word Document (Open XML)",
          some ⟨.unknownOffice, "", false, false⟩, pkFam 2044⟩ : ExtractOk).officeInfo =
        some ⟨.unknownOffice, "", false, false⟩ := by
  have hEq : extractFile oxTrue env0 (pkFam 2044) 1 0 [] =
      some (.ok ⟨2048, 2048, 1, "docx", "Word Document (Open XML)",
        some ⟨.unknownOffice, "", false, false⟩, pkFam 2044⟩) := by
    rw [extractFile_pkFam 2044 1 0, if_neg (by decide)]
  exact ⟨hEq,
    (C10_office_info oxTrue env0 (pkFam 2044) 1 0 [] _ hEq).1 (Or.inl rfl)⟩

end SplitterFiles
